import Mathlib

/-!
# bwt-go: token parsing and verification

A shallow embedding of `token.go` and `parser.go`.

Go strings and byte slices are byte sequences, modelled as `List UInt8`.
A `[]byte` that may be `nil` is an `Option Bytes` (`none` is the nil slice).
A Go `error` is an `Option GoError` (`none` is the nil error).
A callee that is given a slice can store into its elements: the result of a
key resolver carries the elements of the parts slice as the call left them.
-/

set_option maxRecDepth 100000

namespace Bwt

/-- A Go byte slice, as a list of bytes. -/
abbrev Bytes := List UInt8

/-- A Go string: a sequence of bytes (not necessarily valid UTF-8). -/
abbrev GoString := List UInt8

/-- The bytes of a string literal of the source. -/
def str (s : String) : GoString :=
  (s.toList.map String.utf8EncodeChar).flatten

/-! ## Errors -/

/-- Values of the Go interface type `error` that the pipeline handles:
`base64.CorruptInputError`, the package's own `*ValidationError`, and any
other error value a collaborator (signing method, key resolver) returns,
identified by its message. -/
inductive GoError where
  | corruptInput (offset : Nat)
  | foreign (msg : GoString)
  | validation (Inner : Option GoError) (Errors : Nat) (text : GoString)

/-- Modelled from the spec: the failure kind constants of the bitmask
`ValidationError.Errors` (their declaration is not among the sources);
distinct single bits. -/
def ValidationErrorMalformed : Nat := 1

/-- Modelled from the spec: the `Unverifiable` failure kind bit. -/
def ValidationErrorUnverifiable : Nat := 2

/-- Modelled from the spec: the `SignatureInvalid` failure kind bit. -/
def ValidationErrorSignatureInvalid : Nat := 4

/-- Modelled from the spec: the type `ValidationError` (its declaration is
not among the sources): a bitmask of failure kinds, an optional wrapped
cause and a message. -/
structure ValidationError where
  Inner : Option GoError := none
  Errors : Nat := 0
  text : GoString := []

/-- Modelled from the spec: `NewValidationError(errorText, errorFlags)`
builds an error with that message and those kinds and no wrapped cause. -/
def NewValidationError (errorText : GoString) (errorFlags : Nat) : ValidationError :=
  { Inner := none, Errors := errorFlags, text := errorText }

/-- Modelled from the spec: `valid()` is true iff the bitmask is zero. -/
def ValidationError.valid (e : ValidationError) : Bool :=
  e.Errors == 0

/-- A `*ValidationError` seen through the interface type `error`. -/
def ValidationError.toError (e : ValidationError) : GoError :=
  .validation e.Inner e.Errors e.text

/-- The type assertion `err.(*ValidationError)`. -/
def GoError.asValidationError : GoError → Option ValidationError
  | .validation i k t => some { Inner := i, Errors := k, text := t }
  | _ => none

/-- The failure kinds carried by an error value (zero for an error that is
not a `*ValidationError`). -/
def GoError.kinds : GoError → Nat
  | .validation _ k _ => k
  | _ => 0

/-! ## encoding/base64, `URLEncoding` -/

/-- The URL-safe alphabet of `base64.URLEncoding`. -/
def encodeURL : List UInt8 :=
  str "ABCDEFGHIJKLMNOPQRSTUVWXYZabcdefghijklmnopqrstuvwxyz0123456789-_"

/-- The table `enc.encode[i]`. -/
def encodeChar (i : Nat) : UInt8 := encodeURL.getD i 0

/-- The table `enc.decodeMap[c]`: the index of `c` in the alphabet, `0xff`
for a byte outside it. -/
def decodeMap (c : UInt8) : Nat :=
  if encodeURL.indexOf c < 64 then encodeURL.indexOf c else 0xff

/-- The padding character `=`. -/
def padChar : UInt8 := 61

/-- `base64.URLEncoding.EncodeToString`: three bytes give four characters;
a remainder of one or two bytes gives two or three characters and padding. -/
def EncodeToString : Bytes → GoString
  | a :: b :: c :: rest =>
    let val := a.toNat * 2 ^ 16 + b.toNat * 2 ^ 8 + c.toNat
    encodeChar (val / 2 ^ 18 % 64) :: encodeChar (val / 2 ^ 12 % 64) ::
      encodeChar (val / 2 ^ 6 % 64) :: encodeChar (val % 64) :: EncodeToString rest
  | [a, b] =>
    let val := a.toNat * 2 ^ 16 + b.toNat * 2 ^ 8
    [encodeChar (val / 2 ^ 18 % 64), encodeChar (val / 2 ^ 12 % 64),
      encodeChar (val / 2 ^ 6 % 64), padChar]
  | [a] =>
    let val := a.toNat * 2 ^ 16
    [encodeChar (val / 2 ^ 18 % 64), encodeChar (val / 2 ^ 12 % 64), padChar, padChar]
  | [] => []

/-- The loop `for si < len(src) && (src[si] == '\n' || src[si] == '\r')`:
the input left and the new offset. -/
def skipNewlines : List UInt8 → Nat → List UInt8 × Nat
  | c :: rest, si => if c = 10 ∨ c = 13 then skipNewlines rest (si + 1) else (c :: rest, si)
  | [], si => ([], si)

/-- The bytes of one quantum: `dbuf` holds the 6-bit values read (`dlen` of
them), giving `dlen - 1` bytes of
`val = dbuf[0]<<18 | dbuf[1]<<12 | dbuf[2]<<6 | dbuf[3]`. -/
def quantumBytes (dbuf : List Nat) : Bytes :=
  let val := dbuf.getD 0 0 * 2 ^ 18 + dbuf.getD 1 0 * 2 ^ 12 + dbuf.getD 2 0 * 2 ^ 6 + dbuf.getD 3 0
  ([val / 2 ^ 16 % 256, val / 2 ^ 8 % 256, val % 256].map UInt8.ofNat).take (dbuf.length - 1)

/-- The end of a padded quantum: newlines are skipped, anything after them
is trailing garbage (the quantum's bytes are still written). -/
def decodeFinish (dbuf : List Nat) (out : Bytes) (rest : List UInt8) (si : Nat) :
    Bytes × Option GoError :=
  match skipNewlines rest si with
  | ([], _) => (out ++ quantumBytes dbuf, none)
  | (_ :: _, si1) => (out ++ quantumBytes dbuf, some (.corruptInput si1))

/-- `Encoding.Decode` with `decodeQuantum`, for the padded, non-strict
`URLEncoding`, read one input byte at a time: `len` is `len(src)`, `si` the
offset of the next byte, `dbuf` the 6-bit values of the current quantum and
`out` the bytes written so far. Returns the bytes written and the error. -/
def decodeLoop (len : Nat) : List UInt8 → Nat → List Nat → Bytes → Bytes × Option GoError
  | [], si, dbuf, out =>
    if dbuf.length = 0 then (out, none) else (out, some (.corruptInput (si - dbuf.length)))
  | c :: rest, si, dbuf, out =>
    if decodeMap c ≠ 0xff then
      if dbuf.length = 3 then
        decodeLoop len rest (si + 1) [] (out ++ quantumBytes (dbuf ++ [decodeMap c]))
      else decodeLoop len rest (si + 1) (dbuf ++ [decodeMap c]) out
    else if c = 10 ∨ c = 13 then decodeLoop len rest (si + 1) dbuf out
    else if c ≠ padChar then (out, some (.corruptInput si))
    else if dbuf.length < 2 then (out, some (.corruptInput si))
    else if dbuf.length = 2 then
      match skipNewlines rest (si + 1) with
      | ([], _) => (out, some (.corruptInput len))
      | (d :: rest1, si1) =>
        if d ≠ padChar then (out, some (.corruptInput (si1 - 1)))
        else decodeFinish dbuf out rest1 (si1 + 1)
    else decodeFinish dbuf out rest (si + 1)

/-- `base64.URLEncoding.DecodeString`. -/
def DecodeString (s : GoString) : Bytes × Option GoError :=
  decodeLoop s.length s 0 [] []

/-! ## token.go: the segment codec -/

/-- `strings.TrimRight(s, "=")`. -/
def TrimRightPad (s : GoString) : GoString :=
  s.rdropWhile (fun c => c == padChar)

/-- `EncodeSegment`: base64url encoding with the padding stripped. -/
def EncodeSegment (seg : Bytes) : GoString :=
  TrimRightPad (EncodeToString seg)

/-- `DecodeSegment`: the text is padded again to a multiple of four
characters and decoded. -/
def DecodeSegment (seg : GoString) : Bytes × Option GoError :=
  if seg.length % 4 > 0 then
    DecodeString (seg ++ List.replicate (4 - seg.length % 4) padChar)
  else DecodeString seg

/-! ## Collaborators -/

/-- Modelled from the spec: the capability `SigningMethod` (its declaration
is not among the sources): `Verify(signingString, signature, key) error`,
`Sign(signingString, key) (string, error)` and `Alg() string`. The key, an
`interface{}` in the source, is a value of the type parameter `Key`. -/
structure SigningMethod (Key : Type) where
  Verify : GoString → GoString → Key → Option GoError
  Sign : GoString → Key → GoString × Option GoError
  Alg : GoString

/-- What a call of a `KeyBufFunc` leaves behind: the key and the error it
returns, and the elements of the slice it was given, as they are after the
call. The callee receives the caller's own `[]string` and can store into its
elements. -/
structure KeyResult (Key : Type) where
  key : Key
  err : Option GoError
  parts : List GoString

/-- The callback type `KeyBufFunc`, called with the parts slice. -/
abbrev KeyBufFunc (Key : Type) := List GoString → KeyResult Key

/-- The caller's slice after a callee that was given it has returned: the
callee cannot change the length the caller sees; an element that `stored`
lists replaces the old one. -/
def storeBack : List GoString → List GoString → List GoString
  | [], _ => []
  | old :: olds, [] => old :: olds
  | _ :: olds, new :: news => new :: storeBack olds news

/-- Modelled from the spec: the registry lookup `GetSigningMethod(name)`
(not among the sources), `none` for a name that is not registered. The
registry's content is a parameter of the parser functions. -/
abbrev Registry (Key : Type) := GoString → Option (SigningMethod Key)

/-! ## strings -/

/-- `strings.Split(s, sep)` for a separator of one byte. -/
def Split (s : GoString) (sep : UInt8) : List GoString :=
  match s with
  | [] => [[]]
  | c :: rest =>
    if c = sep then [] :: Split rest sep
    else
      match Split rest sep with
      | [] => [[c]]
      | part :: parts => (c :: part) :: parts

/-- `strings.Join(elems, sep)`. -/
def Join (elems : List GoString) (sep : GoString) : GoString :=
  sep.intercalate elems

/-- `strings.ToLower` on one ASCII byte. -/
def lowerByte (c : UInt8) : UInt8 :=
  if 65 ≤ c ∧ c ≤ 90 then c + 32 else c

/-- The test `strings.HasPrefix(strings.ToLower(tokenString), "bearer ")`.
`ToLower` maps the text rune by rune; every byte of `"bearer "` is ASCII, an
ASCII byte of the result comes from one rune, and the only runes that lower
to `b`, `e`, `a`, `r` or a space are these characters and their ASCII
capitals. So the test looks at the first seven bytes, lowered as ASCII. -/
def hasBearerPrefix (tokenString : GoString) : Bool :=
  (tokenString.take 7).map lowerByte == str "bearer "

/-! ## parser.go -/

/-- The struct `Parser`; a nil `ValidMethods` is `none`. -/
structure Parser where
  ValidMethods : Option (List GoString) := none
  UseJSONNumber : Bool := false
  SkipClaimsValidation : Bool := false

/-- The four results of `ParseBytesUnverified`. -/
structure Unverified (Key : Type) where
  claimBytes : Option Bytes
  parts : List GoString
  signingMethod : Option (SigningMethod Key)
  err : Option GoError

/-- `Parser.ParseBytesUnverified`, over the registry `reg`. -/
def Parser.ParseBytesUnverified {Key : Type} (_p : Parser) (reg : Registry Key)
    (tokenString : GoString) : Unverified Key :=
  let parts := Split tokenString 46
  if parts.length ≠ 3 then
    ⟨none, parts, none, some (NewValidationError
      (str "token contains an invalid number of segments") ValidationErrorMalformed).toError⟩
  else
    match DecodeSegment (parts.getD 0 []) with
    | (_, some err) =>
      if hasBearerPrefix tokenString then
        ⟨none, parts, none, some (NewValidationError
          (str "tokenstring should not contain 'bearer '") ValidationErrorMalformed).toError⟩
      else
        ⟨none, parts, none, some (ValidationError.toError
          { Inner := some err, Errors := ValidationErrorMalformed })⟩
    | (headerBytes, none) =>
      let method : GoString := headerBytes
      match DecodeSegment (parts.getD 1 []) with
      | (_, some err) =>
        ⟨none, parts, none, some (ValidationError.toError
          { Inner := some err, Errors := ValidationErrorMalformed })⟩
      | (claimBytes, none) =>
        match reg method with
        | none =>
          ⟨some claimBytes, parts, none, some (NewValidationError
            (str "signing method (alg) is unavailable.") ValidationErrorUnverifiable).toError⟩
        | some signingMethod => ⟨some claimBytes, parts, some signingMethod, none⟩

/-- A call that `ParseToBytes` makes to a caller-supplied collaborator. -/
inductive Call (Key : Type) where
  | keyfunc (parts : List GoString)
  | verify (signingString signature : GoString) (key : Key)

/-- The results of `ParseToBytes`, with the calls made to the key resolver
and to the method's `Verify`, in order. -/
structure Parsed (Key : Type) where
  buf : Option Bytes
  err : Option GoError
  calls : List (Call Key)

/-- `Parser.ParseToBytes`, over the registry `reg`; a nil `keyfunc` is
`none`. The result is `none` when the source would dereference a nil
signing method (a panic). `keyfunc` is called with the slice `parts` itself,
and `Verify` reads that slice after the call. -/
def Parser.ParseToBytes {Key : Type} (p : Parser) (reg : Registry Key)
    (tokenString : GoString) (keyfunc : Option (KeyBufFunc Key)) : Option (Parsed Key) :=
  let r := p.ParseBytesUnverified reg tokenString
  let buf := r.claimBytes
  let parts := r.parts
  match r.err with
  | some err => some ⟨buf, some err, []⟩
  | none =>
    match keyfunc with
    | none =>
      some ⟨buf, some (NewValidationError (str "no Keyfunc was provided.")
        ValidationErrorUnverifiable).toError, []⟩
    | some keyfunc =>
      match r.signingMethod with
      | none => none
      | some method =>
        let alg := method.Alg
        let signingMethodValid : Bool :=
          match p.ValidMethods with
          | none => true
          | some validMethods => validMethods.any (fun m => m == alg)
        if !signingMethodValid then
          some ⟨buf, some (NewValidationError
            (str "signing method " ++ alg ++ str " is invalid")
            ValidationErrorSignatureInvalid).toError, []⟩
        else
          let res := keyfunc parts
          match res.err with
          | some err =>
            match err.asValidationError with
            | some ve => some ⟨buf, some ve.toError, [.keyfunc parts]⟩
            | none =>
              some ⟨buf, some (ValidationError.toError
                { Inner := some err, Errors := ValidationErrorUnverifiable }),
                [.keyfunc parts]⟩
          | none =>
            let key := res.key
            let partsAfter := storeBack parts res.parts
            let signingString := Join (partsAfter.take 2) (str ".")
            let signature := partsAfter.getD 2 []
            let calls := [Call.keyfunc parts, Call.verify signingString signature key]
            let vErr : ValidationError :=
              match method.Verify signingString signature key with
              | some err =>
                { Inner := some err, Errors := 0 ||| ValidationErrorSignatureInvalid }
              | none => {}
            if vErr.valid then some ⟨buf, none, calls⟩
            else some ⟨buf, some vErr.toError, calls⟩

/-! ## token.go -/

/-- `SignedBuf`. -/
def SignedBuf {Key : Type} (buf : Bytes) (key : Key) (method : SigningMethod Key) :
    GoString × Option GoError :=
  let sstr := EncodeSegment method.Alg ++ str "." ++ EncodeSegment buf
  match method.Sign sstr key with
  | (_, some err) => ([], some err)
  | (sig, none) => (Join [sstr, sig] (str "."), none)

/-- The package function `ParseToBytes`: `new(Parser).ParseToBytes`. -/
def ParseToBytes {Key : Type} (reg : Registry Key) (tokenString : GoString)
    (keyfunc : Option (KeyBufFunc Key)) : Option (Parsed Key) :=
  ({} : Parser).ParseToBytes reg tokenString keyfunc

/-! ## A test method -/

/-- The algorithm `TEST`: the signature is the segment encoding of the
signing input followed by the key, a deterministic function of both. -/
def testMethod : SigningMethod Bytes where
  Verify := fun signingString signature key =>
    if signature == EncodeSegment (signingString ++ key) then none
    else some (.foreign (str "signature is invalid"))
  Sign := fun signingString key => (EncodeSegment (signingString ++ key), none)
  Alg := str "TEST"

/-- A registry that holds `testMethod` under its name and nothing else. -/
def testRegistry : Registry Bytes :=
  fun name => if name == str "TEST" then some testMethod else none

/-- A key resolver that returns the key `k` and stores nothing. -/
def resolverReturning (k : Bytes) : KeyBufFunc Bytes :=
  fun parts => ⟨k, none, parts⟩

/-- A key resolver that fails with the error `e` and stores nothing. -/
def resolverFailing (e : GoError) : KeyBufFunc Bytes :=
  fun parts => ⟨[], some e, parts⟩

/-- A key resolver that stores `sig` into `parts[2]` and returns the key `k`. -/
def resolverStoring (k : Bytes) (sig : GoString) : KeyBufFunc Bytes :=
  fun parts => ⟨k, none, [parts.getD 0 [], parts.getD 1 [], sig]⟩

/-- A registry that holds `testMethod` under the name `A`, which is not the
method's own `Alg()`. -/
def aliasRegistry : Registry Bytes :=
  fun name => if name == str "A" then some testMethod else none

/-! ## The codec round trip -/

theorem decodeMap_encodeChar : ∀ i : Fin 64, decodeMap (encodeChar i.val) = i.val := by
  decide

theorem encodeChar_ne_pad : ∀ i : Fin 64, encodeChar i.val ≠ padChar := by
  decide

theorem decodeMap_pad : decodeMap padChar = 0xff := by decide

theorem decodeMap_enc (i : Nat) (h : i < 64) : decodeMap (encodeChar i) = i :=
  decodeMap_encodeChar ⟨i, h⟩

theorem ofNat_toNat_byte (a : UInt8) : UInt8.ofNat a.toNat = a :=
  UInt8.ext (UInt8.toNat_ofNat_of_lt (UInt8.toNat_lt_size a))

theorem decodeLoop_enc (len : Nat) (i : Nat) (h : i < 64) (rest : List UInt8) (si : Nat)
    (dbuf : List Nat) (out : Bytes) :
    decodeLoop len (encodeChar i :: rest) si dbuf out =
      if dbuf.length = 3 then
        decodeLoop len rest (si + 1) [] (out ++ quantumBytes (dbuf ++ [i]))
      else decodeLoop len rest (si + 1) (dbuf ++ [i]) out := by
  have h1 : decodeMap (encodeChar i) = i := decodeMap_enc i h
  have h2 : i ≠ 255 := by omega
  rw [decodeLoop, h1]
  simp [h2]

theorem quantumBytes_four (a b c : UInt8) :
    quantumBytes [(a.toNat * 2 ^ 16 + b.toNat * 2 ^ 8 + c.toNat) / 2 ^ 18 % 64,
      (a.toNat * 2 ^ 16 + b.toNat * 2 ^ 8 + c.toNat) / 2 ^ 12 % 64,
      (a.toNat * 2 ^ 16 + b.toNat * 2 ^ 8 + c.toNat) / 2 ^ 6 % 64,
      (a.toNat * 2 ^ 16 + b.toNat * 2 ^ 8 + c.toNat) % 64] = [a, b, c] := by
  have ha := UInt8.toNat_lt_size a
  have hb := UInt8.toNat_lt_size b
  have hc := UInt8.toNat_lt_size c
  simp only [UInt8.size] at ha hb hc
  have e1 : ((a.toNat * 2 ^ 16 + b.toNat * 2 ^ 8 + c.toNat) / 2 ^ 18 % 64 * 2 ^ 18 +
      (a.toNat * 2 ^ 16 + b.toNat * 2 ^ 8 + c.toNat) / 2 ^ 12 % 64 * 2 ^ 12 +
      (a.toNat * 2 ^ 16 + b.toNat * 2 ^ 8 + c.toNat) / 2 ^ 6 % 64 * 2 ^ 6 +
      (a.toNat * 2 ^ 16 + b.toNat * 2 ^ 8 + c.toNat) % 64) =
      a.toNat * 2 ^ 16 + b.toNat * 2 ^ 8 + c.toNat := by omega
  have e2 : (a.toNat * 2 ^ 16 + b.toNat * 2 ^ 8 + c.toNat) / 2 ^ 16 % 256 = a.toNat := by omega
  have e3 : (a.toNat * 2 ^ 16 + b.toNat * 2 ^ 8 + c.toNat) / 2 ^ 8 % 256 = b.toNat := by omega
  have e4 : (a.toNat * 2 ^ 16 + b.toNat * 2 ^ 8 + c.toNat) % 256 = c.toNat := by omega
  simp only [quantumBytes, List.getD_cons_zero, List.getD_cons_succ, e1, e2, e3, e4,
    List.map_cons, List.map_nil, ofNat_toNat_byte, List.length_cons, List.length_nil]
  rfl

theorem quantumBytes_three (a b : UInt8) :
    quantumBytes [(a.toNat * 2 ^ 16 + b.toNat * 2 ^ 8) / 2 ^ 18 % 64,
      (a.toNat * 2 ^ 16 + b.toNat * 2 ^ 8) / 2 ^ 12 % 64,
      (a.toNat * 2 ^ 16 + b.toNat * 2 ^ 8) / 2 ^ 6 % 64] = [a, b] := by
  have ha := UInt8.toNat_lt_size a
  have hb := UInt8.toNat_lt_size b
  simp only [UInt8.size] at ha hb
  have e1 : ((a.toNat * 2 ^ 16 + b.toNat * 2 ^ 8) / 2 ^ 18 % 64 * 2 ^ 18 +
      (a.toNat * 2 ^ 16 + b.toNat * 2 ^ 8) / 2 ^ 12 % 64 * 2 ^ 12 +
      (a.toNat * 2 ^ 16 + b.toNat * 2 ^ 8) / 2 ^ 6 % 64 * 2 ^ 6 + 0) =
      a.toNat * 2 ^ 16 + b.toNat * 2 ^ 8 := by omega
  have e2 : (a.toNat * 2 ^ 16 + b.toNat * 2 ^ 8) / 2 ^ 16 % 256 = a.toNat := by omega
  have e3 : (a.toNat * 2 ^ 16 + b.toNat * 2 ^ 8) / 2 ^ 8 % 256 = b.toNat := by omega
  simp only [quantumBytes, List.getD_cons_zero, List.getD_cons_succ, List.getD_nil, e1, e2, e3,
    List.map_cons, List.map_nil, ofNat_toNat_byte, List.length_cons, List.length_nil]
  rfl

theorem quantumBytes_two (a : UInt8) :
    quantumBytes [(a.toNat * 2 ^ 16) / 2 ^ 18 % 64, (a.toNat * 2 ^ 16) / 2 ^ 12 % 64] = [a] := by
  have ha := UInt8.toNat_lt_size a
  simp only [UInt8.size] at ha
  have e1 : ((a.toNat * 2 ^ 16) / 2 ^ 18 % 64 * 2 ^ 18 +
      (a.toNat * 2 ^ 16) / 2 ^ 12 % 64 * 2 ^ 12 + 0 * 2 ^ 6 + 0) = a.toNat * 2 ^ 16 := by omega
  have e2 : (a.toNat * 2 ^ 16) / 2 ^ 16 % 256 = a.toNat := by omega
  simp only [quantumBytes, List.getD_cons_zero, List.getD_cons_succ, List.getD_nil, e1, e2,
    List.map_cons, List.map_nil, ofNat_toNat_byte, List.length_cons, List.length_nil]
  rfl

theorem decodeLoop_pad (len : Nat) (rest : List UInt8) (si : Nat) (dbuf : List Nat)
    (out : Bytes) (h : 2 ≤ dbuf.length) :
    decodeLoop len (padChar :: rest) si dbuf out =
      if dbuf.length = 2 then
        match skipNewlines rest (si + 1) with
        | ([], _) => (out, some (.corruptInput len))
        | (d :: rest1, si1) =>
          if d ≠ padChar then (out, some (.corruptInput (si1 - 1)))
          else decodeFinish dbuf out rest1 (si1 + 1)
      else decodeFinish dbuf out rest (si + 1) := by
  have h1 : ¬ dbuf.length < 2 := by omega
  have h2 : ¬ (padChar = 10 ∨ padChar = 13) := by decide
  rw [decodeLoop]
  simp only [decodeMap_pad, ne_eq, not_true_eq_false, if_false, h1, h2]

/-- Decoding the padded encoding of `b` appends exactly `b` to the output,
without error. -/
theorem decodeLoop_EncodeToString (len : Nat) (b : Bytes) :
    ∀ (si : Nat) (out : Bytes), decodeLoop len (EncodeToString b) si [] out = (out ++ b, none) := by
  induction b using EncodeToString.induct with
  | case1 a b c rest ih =>
    intro si out
    have hlt : ∀ n : Nat, n % 64 < 64 := fun n => Nat.mod_lt n (by decide)
    simp only [EncodeToString]
    rw [decodeLoop_enc _ _ (hlt _), if_neg (by simp), decodeLoop_enc _ _ (hlt _),
      if_neg (by simp), decodeLoop_enc _ _ (hlt _), if_neg (by simp),
      decodeLoop_enc _ _ (hlt _), if_pos (by simp)]
    simp only [List.nil_append, List.cons_append]
    rw [quantumBytes_four, ih]
    simp
  | case2 a b =>
    intro si out
    have hlt : ∀ n : Nat, n % 64 < 64 := fun n => Nat.mod_lt n (by decide)
    simp only [EncodeToString]
    rw [decodeLoop_enc _ _ (hlt _), if_neg (by simp), decodeLoop_enc _ _ (hlt _),
      if_neg (by simp), decodeLoop_enc _ _ (hlt _), if_neg (by simp),
      decodeLoop_pad _ _ _ _ _ (by simp), if_neg (by simp)]
    simp only [List.nil_append, List.cons_append, decodeFinish, skipNewlines]
    rw [quantumBytes_three]
  | case3 a =>
    intro si out
    have hlt : ∀ n : Nat, n % 64 < 64 := fun n => Nat.mod_lt n (by decide)
    simp only [EncodeToString]
    rw [decodeLoop_enc _ _ (hlt _), if_neg (by simp), decodeLoop_enc _ _ (hlt _),
      if_neg (by simp), decodeLoop_pad _ _ _ _ _ (by simp), if_pos (by simp)]
    have hs : skipNewlines [padChar] (si + 1 + 1 + 1) = ([padChar], si + 1 + 1 + 1) := by
      simp [skipNewlines, padChar]
    simp only [List.nil_append, List.cons_append]
    rw [hs]
    simp only [decodeFinish, skipNewlines, ne_eq, not_true_eq_false, if_false]
    rw [quantumBytes_two]
  | case4 =>
    intro si out
    simp [EncodeToString, decodeLoop]

theorem DecodeString_EncodeToString (b : Bytes) : DecodeString (EncodeToString b) = (b, none) := by
  simp [DecodeString, decodeLoop_EncodeToString]

/-- The padded encoding is a run of alphabet characters followed by the
padding that fills the last group of four. -/
theorem EncodeToString_shape (b : Bytes) :
    ∃ body : GoString, (∀ c ∈ body, ∃ i, i < 64 ∧ c = encodeChar i) ∧
      EncodeToString b = body ++ List.replicate ((4 - body.length % 4) % 4) padChar := by
  induction b using EncodeToString.induct with
  | case1 a b c rest ih =>
    obtain ⟨body, hb, he⟩ := ih
    have hlt : ∀ n : Nat, n % 64 < 64 := fun n => Nat.mod_lt n (by decide)
    refine ⟨encodeChar ((a.toNat * 2 ^ 16 + b.toNat * 2 ^ 8 + c.toNat) / 2 ^ 18 % 64) ::
      encodeChar ((a.toNat * 2 ^ 16 + b.toNat * 2 ^ 8 + c.toNat) / 2 ^ 12 % 64) ::
      encodeChar ((a.toNat * 2 ^ 16 + b.toNat * 2 ^ 8 + c.toNat) / 2 ^ 6 % 64) ::
      encodeChar ((a.toNat * 2 ^ 16 + b.toNat * 2 ^ 8 + c.toNat) % 64) :: body, ?_, ?_⟩
    · intro x hx
      simp only [List.mem_cons] at hx
      rcases hx with h | h | h | h | h
      · exact ⟨_, hlt _, h⟩
      · exact ⟨_, hlt _, h⟩
      · exact ⟨_, hlt _, h⟩
      · exact ⟨_, hlt _, h⟩
      · exact hb x h
    · simp only [EncodeToString, he, List.length_cons, List.cons_append]
      have : (body.length + 1 + 1 + 1 + 1) % 4 = body.length % 4 := by omega
      rw [this]
  | case2 a b =>
    have hlt : ∀ n : Nat, n % 64 < 64 := fun n => Nat.mod_lt n (by decide)
    refine ⟨[encodeChar ((a.toNat * 2 ^ 16 + b.toNat * 2 ^ 8) / 2 ^ 18 % 64),
      encodeChar ((a.toNat * 2 ^ 16 + b.toNat * 2 ^ 8) / 2 ^ 12 % 64),
      encodeChar ((a.toNat * 2 ^ 16 + b.toNat * 2 ^ 8) / 2 ^ 6 % 64)], ?_, ?_⟩
    · intro x hx
      simp only [List.mem_cons, List.mem_nil_iff, or_false] at hx
      rcases hx with h | h | h
      · exact ⟨_, hlt _, h⟩
      · exact ⟨_, hlt _, h⟩
      · exact ⟨_, hlt _, h⟩
    · simp [EncodeToString]
  | case3 a =>
    have hlt : ∀ n : Nat, n % 64 < 64 := fun n => Nat.mod_lt n (by decide)
    refine ⟨[encodeChar ((a.toNat * 2 ^ 16) / 2 ^ 18 % 64),
      encodeChar ((a.toNat * 2 ^ 16) / 2 ^ 12 % 64)], ?_, ?_⟩
    · intro x hx
      simp only [List.mem_cons, List.mem_nil_iff, or_false] at hx
      rcases hx with h | h
      · exact ⟨_, hlt _, h⟩
      · exact ⟨_, hlt _, h⟩
    · simp [EncodeToString, List.replicate]
  | case4 => exact ⟨[], by simp, by simp [EncodeToString]⟩

theorem TrimRightPad_append_replicate (body : GoString) (k : Nat)
    (h : ∀ c ∈ body, c ≠ padChar) : TrimRightPad (body ++ List.replicate k padChar) = body := by
  unfold TrimRightPad
  induction k with
  | zero =>
    simp only [List.replicate_zero, List.append_nil]
    rw [List.rdropWhile_eq_self_iff]
    intro hne
    simpa using h _ (List.getLast_mem hne)
  | succ n ih =>
    rw [List.replicate_succ', ← List.append_assoc, List.rdropWhile_concat]
    simpa using ih

theorem DecodeSegment_eq_DecodeString (seg : GoString) :
    DecodeSegment seg =
      DecodeString (seg ++ List.replicate ((4 - seg.length % 4) % 4) padChar) := by
  unfold DecodeSegment
  split
  · next h =>
    have : (4 - seg.length % 4) % 4 = 4 - seg.length % 4 := by omega
    rw [this]
  · next h =>
    have : (4 - seg.length % 4) % 4 = 0 := by omega
    rw [this]
    simp

/-- The unpadded encoding consists of alphabet characters only. -/
theorem EncodeSegment_chars (b : Bytes) : ∀ c ∈ EncodeSegment b, ∃ i, i < 64 ∧ c = encodeChar i := by
  obtain ⟨body, hb, he⟩ := EncodeToString_shape b
  have hp : ∀ c ∈ body, c ≠ padChar := by
    intro c hc
    obtain ⟨i, hi, rfl⟩ := hb c hc
    exact encodeChar_ne_pad ⟨i, hi⟩
  rw [EncodeSegment, he, TrimRightPad_append_replicate body _ hp]
  exact hb

theorem DecodeSegment_EncodeSegment (b : Bytes) : DecodeSegment (EncodeSegment b) = (b, none) := by
  obtain ⟨body, hb, he⟩ := EncodeToString_shape b
  have hp : ∀ c ∈ body, c ≠ padChar := by
    intro c hc
    obtain ⟨i, hi, rfl⟩ := hb c hc
    exact encodeChar_ne_pad ⟨i, hi⟩
  rw [EncodeSegment, he, TrimRightPad_append_replicate body _ hp, DecodeSegment_eq_DecodeString,
    ← he]
  exact DecodeString_EncodeToString b

/-! ## ParseBytesUnverified, case by case -/

theorem Split_length (s : GoString) (sep : UInt8) : (Split s sep).length = s.count sep + 1 := by
  induction s with
  | nil => simp [Split]
  | cons c rest ih =>
    by_cases h : c = sep
    · subst h
      simp [Split, ih]
    · have hc : (c == sep) = false := by simpa using h
      cases hs : Split rest sep with
      | nil => simp [hs] at ih
      | cons part parts =>
        simp only [Split, h, if_false, hs, List.length_cons, List.count_cons, hc]
        simp only [hs, List.length_cons] at ih
        simpa using ih

theorem PBU_segments {Key : Type} (p : Parser) (reg : Registry Key) (tok : GoString)
    (h : (Split tok 46).length ≠ 3) :
    p.ParseBytesUnverified reg tok = ⟨none, Split tok 46, none, some (NewValidationError
      (str "token contains an invalid number of segments") ValidationErrorMalformed).toError⟩ := by
  simp [Parser.ParseBytesUnverified, h]

theorem PBU_header_bearer {Key : Type} (p : Parser) (reg : Registry Key) (tok : GoString)
    (p0 p1 p2 : GoString) (e : GoError) (hs : Split tok 46 = [p0, p1, p2])
    (h0 : (DecodeSegment p0).2 = some e) (hb : hasBearerPrefix tok = true) :
    p.ParseBytesUnverified reg tok = ⟨none, [p0, p1, p2], none, some (NewValidationError
      (str "tokenstring should not contain 'bearer '") ValidationErrorMalformed).toError⟩ := by
  rcases hd : DecodeSegment p0 with ⟨b0, e0⟩
  rw [hd] at h0
  simp only at h0
  subst h0
  simp [Parser.ParseBytesUnverified, hs, hd, hb]

theorem PBU_header {Key : Type} (p : Parser) (reg : Registry Key) (tok : GoString)
    (p0 p1 p2 : GoString) (e : GoError) (hs : Split tok 46 = [p0, p1, p2])
    (h0 : (DecodeSegment p0).2 = some e) (hb : hasBearerPrefix tok = false) :
    p.ParseBytesUnverified reg tok = ⟨none, [p0, p1, p2], none, some (ValidationError.toError
      { Inner := some e, Errors := ValidationErrorMalformed })⟩ := by
  rcases hd : DecodeSegment p0 with ⟨b0, e0⟩
  rw [hd] at h0
  simp only at h0
  subst h0
  simp [Parser.ParseBytesUnverified, hs, hd, hb]

theorem PBU_payload {Key : Type} (p : Parser) (reg : Registry Key) (tok : GoString)
    (p0 p1 p2 : GoString) (e : GoError) (hs : Split tok 46 = [p0, p1, p2])
    (h0 : (DecodeSegment p0).2 = none) (h1 : (DecodeSegment p1).2 = some e) :
    p.ParseBytesUnverified reg tok = ⟨none, [p0, p1, p2], none, some (ValidationError.toError
      { Inner := some e, Errors := ValidationErrorMalformed })⟩ := by
  rcases hd : DecodeSegment p0 with ⟨b0, e0⟩
  rcases hd1 : DecodeSegment p1 with ⟨b1, e1⟩
  rw [hd] at h0
  rw [hd1] at h1
  simp only at h0 h1
  subst h0 h1
  simp [Parser.ParseBytesUnverified, hs, hd, hd1]

theorem PBU_unregistered {Key : Type} (p : Parser) (reg : Registry Key) (tok : GoString)
    (p0 p1 p2 : GoString) (hs : Split tok 46 = [p0, p1, p2])
    (h0 : (DecodeSegment p0).2 = none) (h1 : (DecodeSegment p1).2 = none)
    (hr : reg (DecodeSegment p0).1 = none) :
    p.ParseBytesUnverified reg tok = ⟨some (DecodeSegment p1).1, [p0, p1, p2], none,
      some (NewValidationError (str "signing method (alg) is unavailable.")
        ValidationErrorUnverifiable).toError⟩ := by
  rcases hd : DecodeSegment p0 with ⟨b0, e0⟩
  rcases hd1 : DecodeSegment p1 with ⟨b1, e1⟩
  rw [hd] at h0 hr
  rw [hd1] at h1
  simp only at h0 h1 hr
  subst h0 h1
  simp [Parser.ParseBytesUnverified, hs, hd, hd1, hr]

theorem PBU_accepted {Key : Type} (p : Parser) (reg : Registry Key) (tok : GoString)
    (p0 p1 p2 : GoString) (m : SigningMethod Key) (hs : Split tok 46 = [p0, p1, p2])
    (h0 : (DecodeSegment p0).2 = none) (h1 : (DecodeSegment p1).2 = none)
    (hr : reg (DecodeSegment p0).1 = some m) :
    p.ParseBytesUnverified reg tok = ⟨some (DecodeSegment p1).1, [p0, p1, p2], some m, none⟩ := by
  rcases hd : DecodeSegment p0 with ⟨b0, e0⟩
  rcases hd1 : DecodeSegment p1 with ⟨b1, e1⟩
  rw [hd] at h0 hr
  rw [hd1] at h1
  simp only at h0 h1 hr
  subst h0 h1
  simp [Parser.ParseBytesUnverified, hs, hd, hd1, hr]

theorem length_eq_three {α : Type} (l : List α) (h : l.length = 3) :
    ∃ a b c, l = [a, b, c] := by
  match l, h with
  | [a, b, c], _ => exact ⟨a, b, c, rfl⟩

/-- What an accepted token looks like. -/
theorem PBU_accepts {Key : Type} (p : Parser) (reg : Registry Key) (tok : GoString)
    (h : (p.ParseBytesUnverified reg tok).err = none) :
    ∃ p0 p1 p2 m, Split tok 46 = [p0, p1, p2] ∧ (DecodeSegment p0).2 = none ∧
      (DecodeSegment p1).2 = none ∧ reg (DecodeSegment p0).1 = some m ∧
      p.ParseBytesUnverified reg tok = ⟨some (DecodeSegment p1).1, [p0, p1, p2], some m, none⟩ := by
  by_cases hl : (Split tok 46).length = 3
  · obtain ⟨p0, p1, p2, hs⟩ := length_eq_three _ hl
    cases h0 : (DecodeSegment p0).2 with
    | some e =>
      cases hb : hasBearerPrefix tok with
      | true => rw [PBU_header_bearer p reg tok p0 p1 p2 e hs h0 hb] at h; simp at h
      | false => rw [PBU_header p reg tok p0 p1 p2 e hs h0 hb] at h; simp at h
    | none =>
      cases h1 : (DecodeSegment p1).2 with
      | some e => rw [PBU_payload p reg tok p0 p1 p2 e hs h0 h1] at h; simp at h
      | none =>
        cases hr : reg (DecodeSegment p0).1 with
        | none => rw [PBU_unregistered p reg tok p0 p1 p2 hs h0 h1 hr] at h; simp at h
        | some m => exact ⟨p0, p1, p2, m, hs, h0, h1, hr, PBU_accepted p reg tok p0 p1 p2 m hs h0 h1 hr⟩
  · rw [PBU_segments p reg tok hl] at h
    simp at h

/-! ## ParseToBytes, step by step -/

theorem any_eq_alg (ms : List GoString) (alg : GoString) :
    ms.any (fun m => m == alg) = true ↔ alg ∈ ms := by
  simp [List.any_eq_true]

theorem PTB_rejected {Key : Type} (p : Parser) (reg : Registry Key) (tok : GoString)
    (keyfunc : Option (KeyBufFunc Key)) (e : GoError)
    (h : (p.ParseBytesUnverified reg tok).err = some e) :
    p.ParseToBytes reg tok keyfunc =
      some ⟨(p.ParseBytesUnverified reg tok).claimBytes, some e, []⟩ := by
  simp [Parser.ParseToBytes, h]

theorem PTB_no_keyfunc {Key : Type} (p : Parser) (reg : Registry Key) (tok : GoString)
    (h : (p.ParseBytesUnverified reg tok).err = none) :
    p.ParseToBytes reg tok none =
      some ⟨(p.ParseBytesUnverified reg tok).claimBytes, some (NewValidationError
        (str "no Keyfunc was provided.") ValidationErrorUnverifiable).toError, []⟩ := by
  simp [Parser.ParseToBytes, h]

theorem PTB_not_allowed {Key : Type} (p : Parser) (reg : Registry Key) (tok : GoString)
    (kf : KeyBufFunc Key) (m : SigningMethod Key) (ms : List GoString)
    (h : (p.ParseBytesUnverified reg tok).err = none)
    (hm : (p.ParseBytesUnverified reg tok).signingMethod = some m)
    (hv : p.ValidMethods = some ms) (hn : m.Alg ∉ ms) :
    p.ParseToBytes reg tok (some kf) =
      some ⟨(p.ParseBytesUnverified reg tok).claimBytes, some (NewValidationError
        (str "signing method " ++ m.Alg ++ str " is invalid")
        ValidationErrorSignatureInvalid).toError, []⟩ := by
  have ha : ms.any (fun x => x == m.Alg) = false := by
    rw [Bool.eq_false_iff, ne_eq, any_eq_alg]
    exact hn
  simp [Parser.ParseToBytes, h, hm, hv, ha]

theorem PTB_key_validation {Key : Type} (p : Parser) (reg : Registry Key) (tok : GoString)
    (kf : KeyBufFunc Key) (m : SigningMethod Key) (e : GoError) (ve : ValidationError)
    (h : (p.ParseBytesUnverified reg tok).err = none)
    (hm : (p.ParseBytesUnverified reg tok).signingMethod = some m)
    (hv : ∀ ms, p.ValidMethods = some ms → m.Alg ∈ ms)
    (hk : (kf (p.ParseBytesUnverified reg tok).parts).err = some e)
    (he : e.asValidationError = some ve) :
    p.ParseToBytes reg tok (some kf) =
      some ⟨(p.ParseBytesUnverified reg tok).claimBytes, some ve.toError,
        [.keyfunc (p.ParseBytesUnverified reg tok).parts]⟩ := by
  have ha : (match p.ValidMethods with
      | none => true
      | some validMethods => validMethods.any (fun x => x == m.Alg)) = true := by
    cases hp : p.ValidMethods with
    | none => rfl
    | some ms => exact (any_eq_alg ms m.Alg).mpr (hv ms hp)
  simp [Parser.ParseToBytes, h, hm, ha, hk, he]

theorem PTB_key_other {Key : Type} (p : Parser) (reg : Registry Key) (tok : GoString)
    (kf : KeyBufFunc Key) (m : SigningMethod Key) (e : GoError)
    (h : (p.ParseBytesUnverified reg tok).err = none)
    (hm : (p.ParseBytesUnverified reg tok).signingMethod = some m)
    (hv : ∀ ms, p.ValidMethods = some ms → m.Alg ∈ ms)
    (hk : (kf (p.ParseBytesUnverified reg tok).parts).err = some e)
    (he : e.asValidationError = none) :
    p.ParseToBytes reg tok (some kf) =
      some ⟨(p.ParseBytesUnverified reg tok).claimBytes, some (ValidationError.toError
        { Inner := some e, Errors := ValidationErrorUnverifiable }),
        [.keyfunc (p.ParseBytesUnverified reg tok).parts]⟩ := by
  have ha : (match p.ValidMethods with
      | none => true
      | some validMethods => validMethods.any (fun x => x == m.Alg)) = true := by
    cases hp : p.ValidMethods with
    | none => rfl
    | some ms => exact (any_eq_alg ms m.Alg).mpr (hv ms hp)
  simp [Parser.ParseToBytes, h, hm, ha, hk, he]

theorem PTB_verify {Key : Type} (p : Parser) (reg : Registry Key) (tok : GoString)
    (kf : KeyBufFunc Key) (m : SigningMethod Key)
    (h : (p.ParseBytesUnverified reg tok).err = none)
    (hm : (p.ParseBytesUnverified reg tok).signingMethod = some m)
    (hv : ∀ ms, p.ValidMethods = some ms → m.Alg ∈ ms)
    (hk : (kf (p.ParseBytesUnverified reg tok).parts).err = none) :
    p.ParseToBytes reg tok (some kf) =
      some ⟨(p.ParseBytesUnverified reg tok).claimBytes,
        (m.Verify
          (Join ((storeBack (p.ParseBytesUnverified reg tok).parts
            (kf (p.ParseBytesUnverified reg tok).parts).parts).take 2) (str "."))
          ((storeBack (p.ParseBytesUnverified reg tok).parts
            (kf (p.ParseBytesUnverified reg tok).parts).parts).getD 2 [])
          (kf (p.ParseBytesUnverified reg tok).parts).key).map (fun e => ValidationError.toError
            { Inner := some e, Errors := ValidationErrorSignatureInvalid }),
        [.keyfunc (p.ParseBytesUnverified reg tok).parts,
          .verify
            (Join ((storeBack (p.ParseBytesUnverified reg tok).parts
              (kf (p.ParseBytesUnverified reg tok).parts).parts).take 2) (str "."))
            ((storeBack (p.ParseBytesUnverified reg tok).parts
              (kf (p.ParseBytesUnverified reg tok).parts).parts).getD 2 [])
            (kf (p.ParseBytesUnverified reg tok).parts).key]⟩ := by
  have ha : (match p.ValidMethods with
      | none => true
      | some validMethods => validMethods.any (fun x => x == m.Alg)) = true := by
    cases hp : p.ValidMethods with
    | none => rfl
    | some ms => exact (any_eq_alg ms m.Alg).mpr (hv ms hp)
  cases hver : m.Verify
      (Join ((storeBack (p.ParseBytesUnverified reg tok).parts
        (kf (p.ParseBytesUnverified reg tok).parts).parts).take 2) (str "."))
      ((storeBack (p.ParseBytesUnverified reg tok).parts
        (kf (p.ParseBytesUnverified reg tok).parts).parts).getD 2 [])
      (kf (p.ParseBytesUnverified reg tok).parts).key with
  | none =>
    simp only [Parser.ParseToBytes, h, hm, ha, hk, hver]
    simp [ValidationError.valid]
  | some e =>
    simp only [Parser.ParseToBytes, h, hm, ha, hk, hver]
    simp [ValidationError.valid, ValidationErrorSignatureInvalid]

theorem storeBack_length : ∀ old stored : List GoString,
    (storeBack old stored).length = old.length
  | [], _ => rfl
  | _ :: _, [] => rfl
  | _ :: olds, _ :: news => by simp [storeBack, storeBack_length olds news]

theorem storeBack_self : ∀ l : List GoString, storeBack l l = l
  | [] => rfl
  | x :: xs => by simp [storeBack, storeBack_self xs]

theorem str_dot : str "." = [46] := by decide

theorem Join_two (a b : GoString) : Join [a, b] (str ".") = a ++ 46 :: b := by
  simp [Join, List.intercalate, str_dot]

theorem Join_take_two (a b c : GoString) :
    Join ([a, b, c].take 2) (str ".") = a ++ str "." ++ b := by
  simp [Join, List.intercalate, str_dot]

theorem Split_single (s : GoString) (sep : UInt8) (h : sep ∉ s) : Split s sep = [s] := by
  induction s with
  | nil => rfl
  | cons c rest ih =>
    have hc : c ≠ sep := fun e => h (by simp [e])
    have hr : sep ∉ rest := fun e => h (List.mem_cons_of_mem _ e)
    simp [Split, hc, ih hr]

theorem Split_append (a b : GoString) (sep : UInt8) (h : sep ∉ a) :
    Split (a ++ sep :: b) sep = a :: Split b sep := by
  induction a with
  | nil => simp [Split]
  | cons c rest ih =>
    have hc : c ≠ sep := fun e => h (by simp [e])
    have hr : sep ∉ rest := fun e => h (List.mem_cons_of_mem _ e)
    simp [Split, hc, ih hr]

theorem encodeChar_ne_dot : ∀ i : Fin 64, encodeChar i.val ≠ 46 := by
  decide

theorem EncodeSegment_no_dot (b : Bytes) : (46 : UInt8) ∉ EncodeSegment b := by
  intro h
  obtain ⟨i, hi, he⟩ := EncodeSegment_chars b 46 h
  exact encodeChar_ne_dot ⟨i, hi⟩ he.symm

theorem PBU_accepts_parts {Key : Type} (p : Parser) (reg : Registry Key) (tok : GoString)
    (p0 p1 p2 : GoString) (hs : Split tok 46 = [p0, p1, p2])
    (h : (p.ParseBytesUnverified reg tok).err = none) :
    (DecodeSegment p0).2 = none ∧ (DecodeSegment p1).2 = none ∧
      ∃ m, reg (DecodeSegment p0).1 = some m ∧
        p.ParseBytesUnverified reg tok = ⟨some (DecodeSegment p1).1, [p0, p1, p2], some m, none⟩ := by
  obtain ⟨q0, q1, q2, m, hq, h0, h1, hr, hU⟩ := PBU_accepts p reg tok h
  rw [hs] at hq
  simp only [List.cons.injEq, and_true] at hq
  obtain ⟨rfl, rfl, rfl⟩ := hq
  exact ⟨h0, h1, m, hr, hU⟩

theorem toError_asValidationError (e : GoError) (ve : ValidationError)
    (h : e.asValidationError = some ve) : ve.toError = e := by
  cases e with
  | corruptInput n => simp [GoError.asValidationError] at h
  | foreign msg => simp [GoError.asValidationError] at h
  | validation i k t =>
    simp only [GoError.asValidationError, Option.some.injEq] at h
    subst h
    rfl

theorem allowed_cases (p : Parser) (alg : GoString) :
    (∀ ms, p.ValidMethods = some ms → alg ∈ ms) ∨ ∃ ms, p.ValidMethods = some ms ∧ alg ∉ ms := by
  cases hp : p.ValidMethods with
  | none => left; intro ms h; simp at h
  | some ms =>
    by_cases hm : alg ∈ ms
    · left
      intro ms1 h
      simp only [Option.some.injEq] at h
      subst h
      exact hm
    · right
      exact ⟨ms, rfl, hm⟩

/-- Every call of `ParseToBytes` on a token that `ParseBytesUnverified`
accepts, with a key resolver, ends in one of three ways: rejected by the
allow-list, failed in the key resolver, or decided by `Verify` on the parts
slice as the key resolver left it. -/
theorem PTB_accepted_cases {Key : Type} (p : Parser) (reg : Registry Key) (tok : GoString)
    (kf : KeyBufFunc Key) (p0 p1 p2 : GoString) (m : SigningMethod Key)
    (hU : p.ParseBytesUnverified reg tok = ⟨some (DecodeSegment p1).1, [p0, p1, p2], some m, none⟩) :
    (∃ ms, p.ValidMethods = some ms ∧ m.Alg ∉ ms ∧
      p.ParseToBytes reg tok (some kf) = some ⟨some (DecodeSegment p1).1,
        some (NewValidationError (str "signing method " ++ m.Alg ++ str " is invalid")
          ValidationErrorSignatureInvalid).toError, []⟩) ∨
    ((∀ ms, p.ValidMethods = some ms → m.Alg ∈ ms) ∧ ∃ e, (kf [p0, p1, p2]).err = some e ∧
      p.ParseToBytes reg tok (some kf) = some ⟨some (DecodeSegment p1).1,
        some (if e.asValidationError.isSome then e else ValidationError.toError
          { Inner := some e, Errors := ValidationErrorUnverifiable }),
        [.keyfunc [p0, p1, p2]]⟩) ∨
    ((∀ ms, p.ValidMethods = some ms → m.Alg ∈ ms) ∧ (kf [p0, p1, p2]).err = none ∧
      ∃ q0 q1 q2, storeBack [p0, p1, p2] (kf [p0, p1, p2]).parts = [q0, q1, q2] ∧
      p.ParseToBytes reg tok (some kf) = some ⟨some (DecodeSegment p1).1,
        (m.Verify (q0 ++ str "." ++ q1) q2 (kf [p0, p1, p2]).key).map
          (fun e => ValidationError.toError
            { Inner := some e, Errors := ValidationErrorSignatureInvalid }),
        [.keyfunc [p0, p1, p2],
          .verify (q0 ++ str "." ++ q1) q2 (kf [p0, p1, p2]).key]⟩) := by
  have h : (p.ParseBytesUnverified reg tok).err = none := by rw [hU]
  have hm : (p.ParseBytesUnverified reg tok).signingMethod = some m := by rw [hU]
  have hp : (p.ParseBytesUnverified reg tok).parts = [p0, p1, p2] := by rw [hU]
  have hc : (p.ParseBytesUnverified reg tok).claimBytes = some (DecodeSegment p1).1 := by rw [hU]
  rcases allowed_cases p m.Alg with hv | ⟨ms, hv, hn⟩
  · right
    cases hk : (kf [p0, p1, p2]).err with
    | some e =>
      left
      refine ⟨hv, e, rfl, ?_⟩
      rw [← hp] at hk
      cases he : e.asValidationError with
      | some ve =>
        rw [PTB_key_validation p reg tok kf m e ve h hm hv hk he, hp, hc,
          toError_asValidationError e ve he]
        simp
      | none =>
        rw [PTB_key_other p reg tok kf m e h hm hv hk he, hp, hc]
        simp
    | none =>
      right
      obtain ⟨q0, q1, q2, hq⟩ := length_eq_three
        (storeBack [p0, p1, p2] (kf [p0, p1, p2]).parts) (by rw [storeBack_length]; rfl)
      refine ⟨hv, rfl, q0, q1, q2, hq, ?_⟩
      rw [← hp] at hk
      rw [PTB_verify p reg tok kf m h hm hv hk, hp, hc, hq, Join_take_two]
      rfl
  · left
    refine ⟨ms, hv, hn, ?_⟩
    rw [PTB_not_allowed p reg tok kf m ms h hm hv hn, hc]

theorem PBU_form {Key : Type} (p : Parser) (reg : Registry Key) (tok : GoString)
    (p0 p1 p2 : GoString) (m : SigningMethod Key) (hs : Split tok 46 = [p0, p1, p2])
    (h : (p.ParseBytesUnverified reg tok).err = none)
    (hm : (p.ParseBytesUnverified reg tok).signingMethod = some m) :
    p.ParseBytesUnverified reg tok = ⟨some (DecodeSegment p1).1, [p0, p1, p2], some m, none⟩ := by
  obtain ⟨_, _, m1, _, hU⟩ := PBU_accepts_parts p reg tok p0 p1 p2 hs h
  have hm1 : m1 = m := by
    rw [hU] at hm
    simpa using hm
  rw [hU, hm1]

/-! ## The claims -/

/-- C1, as stated, fails: the token below is the one signed with `TEST`
with the last character of its signature changed, and `Verify` rejects its
three raw parts under the key `secret`; but the key resolver receives the
parts slice itself, and one that stores the right signature into `parts[2]`
before it returns the key makes `ParseToBytes` return no error. -/
theorem ParseToBytes_raw_parts_counterexample :
    Split (str "VEVTVA.eyJzdWIiOiJhYmMifQ.VkVWVFZBLmV5SnpkV0lpT2lKaFltTWlmUXNlY3JldB") 46 =
      [str "VEVTVA", str "eyJzdWIiOiJhYmMifQ",
        str "VkVWVFZBLmV5SnpkV0lpT2lKaFltTWlmUXNlY3JldB"] ∧
    (resolverStoring (str "secret") (str "VkVWVFZBLmV5SnpkV0lpT2lKaFltTWlmUXNlY3JldA")
      [str "VEVTVA", str "eyJzdWIiOiJhYmMifQ",
        str "VkVWVFZBLmV5SnpkV0lpT2lKaFltTWlmUXNlY3JldB"]).err = none ∧
    testMethod.Verify (str "VEVTVA" ++ str "." ++ str "eyJzdWIiOiJhYmMifQ")
      (str "VkVWVFZBLmV5SnpkV0lpT2lKaFltTWlmUXNlY3JldB") (str "secret") =
      some (.foreign (str "signature is invalid")) ∧
    ParseToBytes testRegistry
      (str "VEVTVA.eyJzdWIiOiJhYmMifQ.VkVWVFZBLmV5SnpkV0lpT2lKaFltTWlmUXNlY3JldB")
      (some (resolverStoring (str "secret")
        (str "VkVWVFZBLmV5SnpkV0lpT2lKaFltTWlmUXNlY3JldA"))) =
      some ⟨some (str "\x7b\"sub\":\"abc\"\x7d"), none,
        [.keyfunc [str "VEVTVA", str "eyJzdWIiOiJhYmMifQ",
            str "VkVWVFZBLmV5SnpkV0lpT2lKaFltTWlmUXNlY3JldB"],
          .verify (str "VEVTVA.eyJzdWIiOiJhYmMifQ")
            (str "VkVWVFZBLmV5SnpkV0lpT2lKaFltTWlmUXNlY3JldA") (str "secret")]⟩ :=
  ⟨by decide, rfl, rfl, rfl⟩

/-- C1, amended: `ParseToBytes` always returns, and it returns no error if
and only if the token splits on `.` into exactly three parts, the first two
parts decode, the decoded header names a registered method, a key resolver
is present, the allow-list is absent or contains the method's `Alg()`, the
key resolver called with the parts slice returns no error, and the method's
`Verify` on `q[0] + "." + q[1]`, `q[2]` and the returned key returns no
error, where `q` holds the three elements of the parts slice as the key
resolver left them. On success the bytes returned are the decoded
`parts[1]` of the split, and `Verify` was called, after the key resolver. A
key resolver that leaves the elements as it got them leaves `q` equal to the
raw parts. -/
theorem ParseToBytes_success_iff {Key : Type} (p : Parser) (reg : Registry Key)
    (tok : GoString) (keyfunc : Option (KeyBufFunc Key)) :
    (∃ r, p.ParseToBytes reg tok keyfunc = some r) ∧
    ((∃ r, p.ParseToBytes reg tok keyfunc = some r ∧ r.err = none) ↔
      ∃ p0 p1 p2 m kf q0 q1 q2, Split tok 46 = [p0, p1, p2] ∧
        (DecodeSegment p0).2 = none ∧ (DecodeSegment p1).2 = none ∧
        reg (DecodeSegment p0).1 = some m ∧ keyfunc = some kf ∧
        (p.ValidMethods = none ∨ ∃ ms, p.ValidMethods = some ms ∧ m.Alg ∈ ms) ∧
        (kf [p0, p1, p2]).err = none ∧
        storeBack [p0, p1, p2] (kf [p0, p1, p2]).parts = [q0, q1, q2] ∧
        m.Verify (q0 ++ str "." ++ q1) q2 (kf [p0, p1, p2]).key = none) ∧
    (∀ r, p.ParseToBytes reg tok keyfunc = some r → r.err = none →
      ∃ p0 p1 p2 kf q0 q1 q2, Split tok 46 = [p0, p1, p2] ∧ keyfunc = some kf ∧
        storeBack [p0, p1, p2] (kf [p0, p1, p2]).parts = [q0, q1, q2] ∧
        r.buf = some (DecodeSegment p1).1 ∧
        r.calls = [.keyfunc [p0, p1, p2],
          .verify (q0 ++ str "." ++ q1) q2 (kf [p0, p1, p2]).key]) ∧
    (∀ (kf : KeyBufFunc Key) (p0 p1 p2 : GoString), (kf [p0, p1, p2]).parts = [p0, p1, p2] →
      storeBack [p0, p1, p2] (kf [p0, p1, p2]).parts = [p0, p1, p2]) := by
  have key : ∀ r, p.ParseToBytes reg tok keyfunc = some r → r.err = none →
      ∃ p0 p1 p2 m kf q0 q1 q2, Split tok 46 = [p0, p1, p2] ∧
        (DecodeSegment p0).2 = none ∧ (DecodeSegment p1).2 = none ∧
        reg (DecodeSegment p0).1 = some m ∧ keyfunc = some kf ∧
        (∀ ms, p.ValidMethods = some ms → m.Alg ∈ ms) ∧
        (kf [p0, p1, p2]).err = none ∧
        storeBack [p0, p1, p2] (kf [p0, p1, p2]).parts = [q0, q1, q2] ∧
        m.Verify (q0 ++ str "." ++ q1) q2 (kf [p0, p1, p2]).key = none ∧
        r.buf = some (DecodeSegment p1).1 ∧
        r.calls = [.keyfunc [p0, p1, p2],
          .verify (q0 ++ str "." ++ q1) q2 (kf [p0, p1, p2]).key] := by
    intro r hr he
    cases hU : (p.ParseBytesUnverified reg tok).err with
    | some e =>
      rw [PTB_rejected p reg tok keyfunc e hU] at hr
      simp only [Option.some.injEq] at hr
      subst hr
      simp at he
    | none =>
      obtain ⟨p0, p1, p2, m, hs, h0, h1, hreg, hPBU⟩ := PBU_accepts p reg tok hU
      cases keyfunc with
      | none =>
        rw [PTB_no_keyfunc p reg tok hU] at hr
        simp only [Option.some.injEq] at hr
        subst hr
        simp at he
      | some kf =>
        rcases PTB_accepted_cases p reg tok kf p0 p1 p2 m hPBU with
          ⟨ms, _, _, hP⟩ | ⟨_, e, _, hP⟩ | ⟨hv, hk, q0, q1, q2, hq, hP⟩
        · rw [hP] at hr
          simp only [Option.some.injEq] at hr
          subst hr
          simp at he
        · rw [hP] at hr
          simp only [Option.some.injEq] at hr
          subst hr
          simp at he
        · rw [hP] at hr
          simp only [Option.some.injEq] at hr
          subst hr
          simp only [Option.map_eq_none'] at he
          exact ⟨p0, p1, p2, m, kf, q0, q1, q2, hs, h0, h1, hreg, rfl, hv, hk, hq, he, rfl, rfl⟩
  refine ⟨?_, ⟨?_, ?_⟩, ?_, ?_⟩
  · cases hU : (p.ParseBytesUnverified reg tok).err with
    | some e => exact ⟨_, PTB_rejected p reg tok keyfunc e hU⟩
    | none =>
      obtain ⟨p0, p1, p2, m, hs, h0, h1, hreg, hPBU⟩ := PBU_accepts p reg tok hU
      cases keyfunc with
      | none => exact ⟨_, PTB_no_keyfunc p reg tok hU⟩
      | some kf =>
        rcases PTB_accepted_cases p reg tok kf p0 p1 p2 m hPBU with
          ⟨ms, _, _, hP⟩ | ⟨_, e, _, hP⟩ | ⟨hv, hk, q0, q1, q2, hq, hP⟩
        · exact ⟨_, hP⟩
        · exact ⟨_, hP⟩
        · exact ⟨_, hP⟩
  · rintro ⟨r, hr, he⟩
    obtain ⟨p0, p1, p2, m, kf, q0, q1, q2, hs, h0, h1, hreg, hkf, hv, hk, hq, hver, _, _⟩ :=
      key r hr he
    refine ⟨p0, p1, p2, m, kf, q0, q1, q2, hs, h0, h1, hreg, hkf, ?_, hk, hq, hver⟩
    cases hp : p.ValidMethods with
    | none => exact Or.inl rfl
    | some ms => exact Or.inr ⟨ms, rfl, hv ms hp⟩
  · rintro ⟨p0, p1, p2, m, kf, q0, q1, q2, hs, h0, h1, hreg, hkf, hv, hk, hq, hver⟩
    subst hkf
    have hPBU := PBU_accepted p reg tok p0 p1 p2 m hs h0 h1 hreg
    have hv1 : ∀ ms, p.ValidMethods = some ms → m.Alg ∈ ms := by
      intro ms hms
      rcases hv with hv | ⟨ms1, hv, hin⟩
      · rw [hv] at hms
        simp at hms
      · rw [hv] at hms
        simp only [Option.some.injEq] at hms
        subst hms
        exact hin
    rcases PTB_accepted_cases p reg tok kf p0 p1 p2 m hPBU with
      ⟨ms, hms, hn, _⟩ | ⟨_, e, he, _⟩ | ⟨_, _, r0, r1, r2, hr, hP⟩
    · exact absurd (hv1 ms hms) hn
    · rw [hk] at he
      simp at he
    · rw [hq] at hr
      simp only [List.cons.injEq, and_true] at hr
      obtain ⟨rfl, rfl, rfl⟩ := hr
      refine ⟨_, hP, ?_⟩
      show Option.map _ (m.Verify (q0 ++ str "." ++ q1) q2 (kf [p0, p1, p2]).key) = none
      rw [hver]
      rfl
  · intro r hr he
    obtain ⟨p0, p1, p2, m, kf, q0, q1, q2, hs, h0, h1, hreg, hkf, hv, hk, hq, hver, hb, hc⟩ :=
      key r hr he
    exact ⟨p0, p1, p2, kf, q0, q1, q2, hs, hkf, hq, hb, hc⟩
  · intro kf p0 p1 p2 h
    rw [h, storeBack_self]

/-- The token `SignedBuf` builds for the payload `{"sub":"abc"}`, the key
`secret` and the method `TEST`. -/
theorem signedToken_eq :
    SignedBuf (str "\x7b\"sub\":\"abc\"\x7d") (str "secret") testMethod =
      (str "VEVTVA.eyJzdWIiOiJhYmMifQ.VkVWVFZBLmV5SnpkV0lpT2lKaFltTWlmUXNlY3JldA", none) := by
  rfl

/-- C1, amended, at the token signed with `TEST`: it is accepted. -/
theorem ParseToBytes_success_iff_witness :
    ∃ r, ({} : Parser).ParseToBytes testRegistry
      (str "VEVTVA.eyJzdWIiOiJhYmMifQ.VkVWVFZBLmV5SnpkV0lpT2lKaFltTWlmUXNlY3JldA")
      (some (resolverReturning (str "secret"))) = some r ∧ r.err = none :=
  (ParseToBytes_success_iff {} testRegistry
    (str "VEVTVA.eyJzdWIiOiJhYmMifQ.VkVWVFZBLmV5SnpkV0lpT2lKaFltTWlmUXNlY3JldA")
    (some (resolverReturning (str "secret")))).2.1.mpr
    ⟨str "VEVTVA", str "eyJzdWIiOiJhYmMifQ",
      str "VkVWVFZBLmV5SnpkV0lpT2lKaFltTWlmUXNlY3JldA", testMethod,
      resolverReturning (str "secret"), str "VEVTVA", str "eyJzdWIiOiJhYmMifQ",
      str "VkVWVFZBLmV5SnpkV0lpT2lKaFltTWlmUXNlY3JldA", by decide, rfl, rfl, rfl, rfl,
      Or.inl rfl, rfl, rfl, rfl⟩

/-- C2: sign/verify round trip. If `M` is registered under `M.Alg()`,
`M.Sign` on the signing input and `K` returns a signature text without `.`
and no error, and `M.Verify` accepts that signature, then `SignedBuf`
returns a token without error and `ParseToBytes` on it, with a resolver
returning `K` (and storing nothing into the parts) and no allow-list,
returns the payload `P` and no error. -/
theorem SignedBuf_ParseToBytes_roundtrip {Key : Type} (reg : Registry Key) (P : Bytes)
    (K : Key) (M : SigningMethod Key) (sig : GoString)
    (hreg : reg M.Alg = some M)
    (hsign : M.Sign (EncodeSegment M.Alg ++ str "." ++ EncodeSegment P) K = (sig, none))
    (hdot : (46 : UInt8) ∉ sig)
    (hver : M.Verify (EncodeSegment M.Alg ++ str "." ++ EncodeSegment P) sig K = none) :
    (SignedBuf P K M).2 = none ∧
    ParseToBytes reg (SignedBuf P K M).1 (some (fun parts => ⟨K, none, parts⟩)) =
      some ⟨some P, none, [.keyfunc [EncodeSegment M.Alg, EncodeSegment P, sig],
        .verify (EncodeSegment M.Alg ++ str "." ++ EncodeSegment P) sig K]⟩ := by
  have htok : SignedBuf P K M =
      (EncodeSegment M.Alg ++ 46 :: (EncodeSegment P ++ 46 :: sig), none) := by
    simp only [SignedBuf, hsign, Join_two]
    simp [str_dot]
  have hs : Split (SignedBuf P K M).1 46 = [EncodeSegment M.Alg, EncodeSegment P, sig] := by
    rw [htok]
    simp only
    rw [Split_append _ _ _ (EncodeSegment_no_dot _), Split_append _ _ _ (EncodeSegment_no_dot _),
      Split_single _ _ hdot]
  have h0 : DecodeSegment (EncodeSegment M.Alg) = (M.Alg, none) := DecodeSegment_EncodeSegment _
  have h1 : DecodeSegment (EncodeSegment P) = (P, none) := DecodeSegment_EncodeSegment _
  have hPBU := PBU_accepted {} reg (SignedBuf P K M).1 _ _ _ M hs (by rw [h0]) (by rw [h1])
    (by rw [h0]; exact hreg)
  refine ⟨by rw [htok], ?_⟩
  rcases PTB_accepted_cases {} reg (SignedBuf P K M).1 (fun parts => ⟨K, none, parts⟩)
      _ _ _ M hPBU with
    ⟨ms, hms, _, _⟩ | ⟨_, e, he, _⟩ | ⟨_, _, q0, q1, q2, hq, hP⟩
  · simp at hms
  · simp at he
  · rw [storeBack_self] at hq
    simp only [List.cons.injEq, and_true] at hq
    obtain ⟨rfl, rfl, rfl⟩ := hq
    rw [ParseToBytes, hP, h1]
    simp only [hver, Option.map_none']

/-- C2, at the payload `{"sub":"abc"}` (13 bytes), the key `secret` and the
algorithm `TEST`. -/
theorem SignedBuf_ParseToBytes_roundtrip_witness :
    (str "\x7b\"sub\":\"abc\"\x7d").length = 13 ∧
    (SignedBuf (str "\x7b\"sub\":\"abc\"\x7d") (str "secret") testMethod).2 = none ∧
    ParseToBytes testRegistry
      (SignedBuf (str "\x7b\"sub\":\"abc\"\x7d") (str "secret") testMethod).1
      (some (fun parts => ⟨str "secret", none, parts⟩)) =
      some ⟨some (str "\x7b\"sub\":\"abc\"\x7d"), none,
        [.keyfunc [EncodeSegment testMethod.Alg, EncodeSegment (str "\x7b\"sub\":\"abc\"\x7d"),
            str "VkVWVFZBLmV5SnpkV0lpT2lKaFltTWlmUXNlY3JldA"],
          .verify (EncodeSegment testMethod.Alg ++ str "." ++
              EncodeSegment (str "\x7b\"sub\":\"abc\"\x7d"))
            (str "VkVWVFZBLmV5SnpkV0lpT2lKaFltTWlmUXNlY3JldA") (str "secret")]⟩ :=
  ⟨by decide, SignedBuf_ParseToBytes_roundtrip testRegistry (str "\x7b\"sub\":\"abc\"\x7d")
    (str "secret") testMethod (str "VkVWVFZBLmV5SnpkV0lpT2lKaFltTWlmUXNlY3JldA")
    rfl rfl (by decide) rfl⟩

/-- C3: codec round trip. For every byte sequence `b`, the empty one
included, `DecodeSegment(EncodeSegment(b))` returns `b` and no error. -/
theorem DecodeSegment_EncodeSegment_roundtrip (b : Bytes) :
    DecodeSegment (EncodeSegment b) = (b, none) :=
  DecodeSegment_EncodeSegment b

/-- C4: allow-list short-circuit. On a token that `ParseBytesUnverified`
accepts, with a key resolver present, an allow-list that does not contain
the method's `Alg()` makes `ParseToBytes` fail with kind `SignatureInvalid`
and the message `signing method <alg> is invalid`. Neither the key resolver
nor `Verify` is called, and the result is the same for every other key
resolver and every other `Verify` of the registered methods. -/
theorem allowList_shortCircuit {Key : Type} (p : Parser) (reg : Registry Key)
    (tok : GoString) (kf : KeyBufFunc Key) (m : SigningMethod Key) (ms : List GoString)
    (h : (p.ParseBytesUnverified reg tok).err = none)
    (hm : (p.ParseBytesUnverified reg tok).signingMethod = some m)
    (hv : p.ValidMethods = some ms) (hn : m.Alg ∉ ms) :
    p.ParseToBytes reg tok (some kf) =
      some ⟨(p.ParseBytesUnverified reg tok).claimBytes, some (NewValidationError
        (str "signing method " ++ m.Alg ++ str " is invalid")
        ValidationErrorSignatureInvalid).toError, []⟩ ∧
    ∀ (kf1 : KeyBufFunc Key) (verify1 : GoString → GoString → Key → Option GoError),
      p.ParseToBytes (fun name => (reg name).map (fun x => { x with Verify := verify1 }))
        tok (some kf1) = p.ParseToBytes reg tok (some kf) := by
  have hmain := PTB_not_allowed p reg tok kf m ms h hm hv hn
  refine ⟨hmain, ?_⟩
  intro kf1 verify1
  obtain ⟨p0, p1, p2, m1, hs, h0, h1, hreg, hPBU⟩ := PBU_accepts p reg tok h
  have hm1 : m1 = m := by
    rw [hPBU] at hm
    simpa using hm
  subst hm1
  have hPBU1 := PBU_accepted p (fun name => (reg name).map (fun x => { x with Verify := verify1 }))
    tok p0 p1 p2 { m1 with Verify := verify1 } hs h0 h1 (by simp [hreg])
  rw [hmain, PTB_not_allowed p _ tok kf1 { m1 with Verify := verify1 } ms (by rw [hPBU1])
    (by rw [hPBU1]) hv hn, hPBU, hPBU1]

/-- C4, at the token signed with `TEST` and the allow-list `["HS256"]`. -/
theorem allowList_shortCircuit_witness :
    ({ ValidMethods := some [str "HS256"] } : Parser).ParseToBytes testRegistry
      (str "VEVTVA.eyJzdWIiOiJhYmMifQ.VkVWVFZBLmV5SnpkV0lpT2lKaFltTWlmUXNlY3JldA")
      (some (resolverReturning (str "secret"))) =
      some ⟨some (str "\x7b\"sub\":\"abc\"\x7d"), some (NewValidationError
        (str "signing method TEST is invalid") ValidationErrorSignatureInvalid).toError, []⟩ :=
  (allowList_shortCircuit { ValidMethods := some [str "HS256"] } testRegistry
    (str "VEVTVA.eyJzdWIiOiJhYmMifQ.VkVWVFZBLmV5SnpkV0lpT2lKaFltTWlmUXNlY3JldA")
    (resolverReturning (str "secret")) testMethod [str "HS256"] rfl rfl rfl (by decide)).1

/-- C5: a parser whose `ValidMethods` is an empty, non-nil slice rejects the
token signed with `TEST` with kind `SignatureInvalid`, without calling the
key resolver, while a parser whose `ValidMethods` is nil accepts it. -/
theorem emptyAllowList_rejects :
    ({ ValidMethods := some [] } : Parser).ParseToBytes testRegistry
      (str "VEVTVA.eyJzdWIiOiJhYmMifQ.VkVWVFZBLmV5SnpkV0lpT2lKaFltTWlmUXNlY3JldA")
      (some (resolverReturning (str "secret"))) =
      some ⟨some (str "\x7b\"sub\":\"abc\"\x7d"), some (NewValidationError
        (str "signing method TEST is invalid") ValidationErrorSignatureInvalid).toError, []⟩ ∧
    ({ ValidMethods := none } : Parser).ParseToBytes testRegistry
      (str "VEVTVA.eyJzdWIiOiJhYmMifQ.VkVWVFZBLmV5SnpkV0lpT2lKaFltTWlmUXNlY3JldA")
      (some (resolverReturning (str "secret"))) =
      some ⟨some (str "\x7b\"sub\":\"abc\"\x7d"), none,
        [.keyfunc [str "VEVTVA", str "eyJzdWIiOiJhYmMifQ",
            str "VkVWVFZBLmV5SnpkV0lpT2lKaFltTWlmUXNlY3JldA"],
          .verify (str "VEVTVA.eyJzdWIiOiJhYmMifQ")
            (str "VkVWVFZBLmV5SnpkV0lpT2lKaFltTWlmUXNlY3JldA") (str "secret")]⟩ :=
  ⟨rfl, rfl⟩

/-- C6, as stated, fails: with no key resolver the empty token fails with
kind `Malformed`, and the `Unverifiable` bit is not set. -/
theorem noResolver_Unverifiable_counterexample :
    ParseToBytes testRegistry (str "") none =
      some ⟨none, some (NewValidationError (str "token contains an invalid number of segments")
        ValidationErrorMalformed).toError, []⟩ ∧
    ValidationErrorMalformed &&& ValidationErrorUnverifiable = 0 :=
  ⟨rfl, by decide⟩

/-- C6, amended: with no key resolver `ParseToBytes` always fails, and
`Verify` is not called: it fails with the error of `ParseBytesUnverified`
when that rejects the token, and otherwise with kind `Unverifiable` and the
message `no Keyfunc was provided.`. -/
theorem noResolver_fails {Key : Type} (p : Parser) (reg : Registry Key) (tok : GoString) :
    p.ParseToBytes reg tok none =
      some ⟨(p.ParseBytesUnverified reg tok).claimBytes,
        some (match (p.ParseBytesUnverified reg tok).err with
          | some e => e
          | none => (NewValidationError (str "no Keyfunc was provided.")
              ValidationErrorUnverifiable).toError), []⟩ := by
  cases h : (p.ParseBytesUnverified reg tok).err with
  | some e => exact PTB_rejected p reg tok none e h
  | none => exact PTB_no_keyfunc p reg tok h

/-- C7, as stated, fails: the header of `QQ.!.c` decodes to the name `A`,
which is not registered, but the payload segment does not decode and the
error has kind `Malformed`, not `Unverifiable`. -/
theorem unknownAlg_Unverifiable_counterexample :
    Split (str "QQ.!.c") 46 = [str "QQ", str "!", str "c"] ∧
    DecodeSegment (str "QQ") = (str "A", none) ∧
    testRegistry (str "A") = none ∧
    ({} : Parser).ParseBytesUnverified testRegistry (str "QQ.!.c") =
      ⟨none, [str "QQ", str "!", str "c"], none, some (ValidationError.toError
        { Inner := some (.corruptInput 0), Errors := ValidationErrorMalformed })⟩ ∧
    ValidationErrorMalformed &&& ValidationErrorUnverifiable = 0 :=
  ⟨by decide, rfl, rfl, rfl, by decide⟩

/-- C7, amended: for a token with exactly three segments whose header and
payload segments both decode and whose header names no registered method,
`ParseBytesUnverified` fails with kind `Unverifiable` and returns no signing
method, and `ParseToBytes` fails with the same error whatever the key
resolver and the allow-list are, calling neither the key resolver nor
`Verify`. -/
theorem unknownAlg_Unverifiable {Key : Type} (p : Parser) (reg : Registry Key)
    (tok : GoString) (keyfunc : Option (KeyBufFunc Key)) (p0 p1 p2 : GoString)
    (hs : Split tok 46 = [p0, p1, p2])
    (h0 : (DecodeSegment p0).2 = none) (h1 : (DecodeSegment p1).2 = none)
    (hr : reg (DecodeSegment p0).1 = none) :
    p.ParseBytesUnverified reg tok = ⟨some (DecodeSegment p1).1, [p0, p1, p2], none,
      some (NewValidationError (str "signing method (alg) is unavailable.")
        ValidationErrorUnverifiable).toError⟩ ∧
    p.ParseToBytes reg tok keyfunc = some ⟨some (DecodeSegment p1).1,
      some (NewValidationError (str "signing method (alg) is unavailable.")
        ValidationErrorUnverifiable).toError, []⟩ := by
  have hU := PBU_unregistered p reg tok p0 p1 p2 hs h0 h1 hr
  refine ⟨hU, ?_⟩
  rw [PTB_rejected p reg tok keyfunc _ (by rw [hU]), hU]

/-- C7, amended, at a token whose header decodes to `A`. -/
theorem unknownAlg_Unverifiable_witness :
    ParseToBytes testRegistry (str "QQ.eyJzdWIiOiJhYmMifQ.c")
      (some (resolverReturning (str "secret"))) =
      some ⟨some (str "\x7b\"sub\":\"abc\"\x7d"),
        some (NewValidationError (str "signing method (alg) is unavailable.")
          ValidationErrorUnverifiable).toError, []⟩ :=
  (unknownAlg_Unverifiable {} testRegistry (str "QQ.eyJzdWIiOiJhYmMifQ.c")
    (some (resolverReturning (str "secret"))) (str "QQ") (str "eyJzdWIiOiJhYmMifQ") (str "c")
    (by decide) rfl rfl rfl).2

/-- C8: segment-count invariant. The split on `.` has three parts exactly
when the text holds two `.` characters; a token whose split does not have
three parts makes `ParseBytesUnverified` and `ParseToBytes` fail with kind
`Malformed` and the message `token contains an invalid number of segments`,
whatever the key resolver and the allow-list are. -/
theorem segmentCount_Malformed {Key : Type} (p : Parser) (reg : Registry Key)
    (tok : GoString) (keyfunc : Option (KeyBufFunc Key))
    (h : (Split tok 46).length ≠ 3) :
    tok.count 46 ≠ 2 ∧
    p.ParseBytesUnverified reg tok = ⟨none, Split tok 46, none, some (NewValidationError
      (str "token contains an invalid number of segments") ValidationErrorMalformed).toError⟩ ∧
    p.ParseToBytes reg tok keyfunc = some ⟨none, some (NewValidationError
      (str "token contains an invalid number of segments") ValidationErrorMalformed).toError,
      []⟩ := by
  have hU := PBU_segments p reg tok h
  refine ⟨?_, hU, ?_⟩
  · rw [Split_length] at h
    omega
  · rw [PTB_rejected p reg tok keyfunc _ (by rw [hU]), hU]

/-- C8, at a token of four segments and an allow-list. -/
theorem segmentCount_Malformed_witness :
    (Split (str "VEVTVA.eyJzdWIiOiJhYmMifQ.c.d") 46).length ≠ 3 ∧
    ({ ValidMethods := some [str "TEST"] } : Parser).ParseToBytes testRegistry
      (str "VEVTVA.eyJzdWIiOiJhYmMifQ.c.d") (some (resolverReturning (str "secret"))) =
      some ⟨none, some (NewValidationError
        (str "token contains an invalid number of segments") ValidationErrorMalformed).toError,
        []⟩ :=
  ⟨by decide, (segmentCount_Malformed { ValidMethods := some [str "TEST"] } testRegistry
    (str "VEVTVA.eyJzdWIiOiJhYmMifQ.c.d") (some (resolverReturning (str "secret")))
    (by decide)).2.2⟩

/-- C9, as stated, fails: `ParseBytesUnverified` accepts the token below,
there is no allow-list, the key resolver returns the key `secret` without
error and `Verify` rejects the three raw parts under that key; but the
resolver has stored the right signature into `parts[2]`, the slice it shares
with the parser, and `ParseToBytes` returns no error. -/
theorem verifyFailure_raw_parts_counterexample :
    ({} : Parser).ParseBytesUnverified testRegistry (str "VEVTVA.eyJzdWIiOiJhYmMifQ.AAAA") =
      ⟨some (str "\x7b\"sub\":\"abc\"\x7d"),
        [str "VEVTVA", str "eyJzdWIiOiJhYmMifQ", str "AAAA"], some testMethod, none⟩ ∧
    (resolverStoring (str "secret") (str "VkVWVFZBLmV5SnpkV0lpT2lKaFltTWlmUXNlY3JldA")
      [str "VEVTVA", str "eyJzdWIiOiJhYmMifQ", str "AAAA"]).key = str "secret" ∧
    (resolverStoring (str "secret") (str "VkVWVFZBLmV5SnpkV0lpT2lKaFltTWlmUXNlY3JldA")
      [str "VEVTVA", str "eyJzdWIiOiJhYmMifQ", str "AAAA"]).err = none ∧
    testMethod.Verify (str "VEVTVA" ++ str "." ++ str "eyJzdWIiOiJhYmMifQ") (str "AAAA")
      (str "secret") = some (.foreign (str "signature is invalid")) ∧
    (({} : Parser).ParseToBytes testRegistry (str "VEVTVA.eyJzdWIiOiJhYmMifQ.AAAA")
      (some (resolverStoring (str "secret")
        (str "VkVWVFZBLmV5SnpkV0lpT2lKaFltTWlmUXNlY3JldA")))).map (fun r => r.err) =
      some none :=
  ⟨rfl, rfl, rfl, rfl, rfl⟩

/-- C9, amended: verify failure. On a token that `ParseBytesUnverified`
accepts and that passes the allow-list, with a key resolver that returns the
key `K` without error, if `Verify(q[0] + "." + q[1], q[2], K)` fails with
`e`, where `q` holds the three elements of the parts slice as the key
resolver left them, then `ParseToBytes` returns the decoded payload bytes
together with a `ValidationError` whose kinds are exactly `SignatureInvalid`
and whose wrapped cause is `e`. -/
theorem verifyFailure_SignatureInvalid {Key : Type} (p : Parser) (reg : Registry Key)
    (tok : GoString) (kf : KeyBufFunc Key) (p0 p1 p2 q0 q1 q2 : GoString)
    (m : SigningMethod Key) (K : Key) (e : GoError)
    (hs : Split tok 46 = [p0, p1, p2])
    (h : (p.ParseBytesUnverified reg tok).err = none)
    (hm : (p.ParseBytesUnverified reg tok).signingMethod = some m)
    (hv : p.ValidMethods = none ∨ ∃ ms, p.ValidMethods = some ms ∧ m.Alg ∈ ms)
    (hk : (kf [p0, p1, p2]).err = none) (hkey : (kf [p0, p1, p2]).key = K)
    (hq : storeBack [p0, p1, p2] (kf [p0, p1, p2]).parts = [q0, q1, q2])
    (hver : m.Verify (q0 ++ str "." ++ q1) q2 K = some e) :
    p.ParseToBytes reg tok (some kf) = some ⟨some (DecodeSegment p1).1,
      some (ValidationError.toError
        { Inner := some e, Errors := ValidationErrorSignatureInvalid, text := [] }),
      [.keyfunc [p0, p1, p2], .verify (q0 ++ str "." ++ q1) q2 K]⟩ := by
  have hPBU := PBU_form p reg tok p0 p1 p2 m hs h hm
  rcases PTB_accepted_cases p reg tok kf p0 p1 p2 m hPBU with
    ⟨ms, hms, hn, _⟩ | ⟨_, e1, he, _⟩ | ⟨_, _, r0, r1, r2, hr, hP⟩
  · rcases hv with hv | ⟨ms1, hv, hin⟩
    · rw [hv] at hms
      simp at hms
    · rw [hv] at hms
      simp only [Option.some.injEq] at hms
      subst hms
      exact absurd hin hn
  · rw [hk] at he
    simp at he
  · rw [hq] at hr
    simp only [List.cons.injEq, and_true] at hr
    obtain ⟨rfl, rfl, rfl⟩ := hr
    rw [hP, hkey]
    simp only [hver, Option.map_some']

/-- C9, amended, at the token signed with `TEST` whose signature segment has
its last character changed, with a resolver that stores nothing. -/
theorem verifyFailure_SignatureInvalid_witness :
    ParseToBytes testRegistry
      (str "VEVTVA.eyJzdWIiOiJhYmMifQ.VkVWVFZBLmV5SnpkV0lpT2lKaFltTWlmUXNlY3JldB")
      (some (resolverReturning (str "secret"))) =
      some ⟨some (str "\x7b\"sub\":\"abc\"\x7d"),
        some (ValidationError.toError
          { Inner := some (.foreign (str "signature is invalid")),
            Errors := ValidationErrorSignatureInvalid, text := [] }),
        [.keyfunc [str "VEVTVA", str "eyJzdWIiOiJhYmMifQ",
            str "VkVWVFZBLmV5SnpkV0lpT2lKaFltTWlmUXNlY3JldB"],
          .verify (str "VEVTVA" ++ str "." ++ str "eyJzdWIiOiJhYmMifQ")
            (str "VkVWVFZBLmV5SnpkV0lpT2lKaFltTWlmUXNlY3JldB") (str "secret")]⟩ :=
  verifyFailure_SignatureInvalid {} testRegistry
    (str "VEVTVA.eyJzdWIiOiJhYmMifQ.VkVWVFZBLmV5SnpkV0lpT2lKaFltTWlmUXNlY3JldB")
    (resolverReturning (str "secret")) (str "VEVTVA") (str "eyJzdWIiOiJhYmMifQ")
    (str "VkVWVFZBLmV5SnpkV0lpT2lKaFltTWlmUXNlY3JldB") (str "VEVTVA")
    (str "eyJzdWIiOiJhYmMifQ") (str "VkVWVFZBLmV5SnpkV0lpT2lKaFltTWlmUXNlY3JldB")
    testMethod (str "secret")
    (.foreign (str "signature is invalid")) (by decide) rfl rfl (Or.inl rfl) rfl rfl rfl rfl

/-- C10: key-resolver failure. On a token that `ParseBytesUnverified`
accepts and that passes the allow-list, if the key resolver applied to the
three raw parts fails with `e`, then `ParseToBytes` fails and `Verify` is not
called: the error is `e` itself when `e` is a `ValidationError`, and
otherwise a `ValidationError` with kinds exactly `Unverifiable` and wrapped
cause `e`. -/
theorem keyResolverFailure {Key : Type} (p : Parser) (reg : Registry Key)
    (tok : GoString) (kf : KeyBufFunc Key) (p0 p1 p2 : GoString) (m : SigningMethod Key)
    (e : GoError)
    (hs : Split tok 46 = [p0, p1, p2])
    (h : (p.ParseBytesUnverified reg tok).err = none)
    (hm : (p.ParseBytesUnverified reg tok).signingMethod = some m)
    (hv : p.ValidMethods = none ∨ ∃ ms, p.ValidMethods = some ms ∧ m.Alg ∈ ms)
    (hk : (kf [p0, p1, p2]).err = some e) :
    p.ParseToBytes reg tok (some kf) = some ⟨some (DecodeSegment p1).1,
      some (if e.asValidationError.isSome then e else ValidationError.toError
        { Inner := some e, Errors := ValidationErrorUnverifiable, text := [] }),
      [.keyfunc [p0, p1, p2]]⟩ := by
  have hPBU := PBU_form p reg tok p0 p1 p2 m hs h hm
  rcases PTB_accepted_cases p reg tok kf p0 p1 p2 m hPBU with
    ⟨ms, hms, hn, _⟩ | ⟨_, e1, he, hP⟩ | ⟨_, hnone, _⟩
  · rcases hv with hv | ⟨ms1, hv, hin⟩
    · rw [hv] at hms
      simp at hms
    · rw [hv] at hms
      simp only [Option.some.injEq] at hms
      subst hms
      exact absurd hin hn
  · rw [hk] at he
    simp only [Option.some.injEq] at he
    subst he
    exact hP
  · rw [hk] at hnone
    simp at hnone

/-- C10, at the token signed with `TEST`: a resolver failing with a plain
error, and a resolver failing with a `ValidationError` of kind `Malformed`. -/
theorem keyResolverFailure_witness :
    ParseToBytes testRegistry
      (str "VEVTVA.eyJzdWIiOiJhYmMifQ.VkVWVFZBLmV5SnpkV0lpT2lKaFltTWlmUXNlY3JldA")
      (some (resolverFailing (.foreign (str "no key")))) =
      some ⟨some (str "\x7b\"sub\":\"abc\"\x7d"),
        some (.validation (some (.foreign (str "no key"))) ValidationErrorUnverifiable []),
        [.keyfunc [str "VEVTVA", str "eyJzdWIiOiJhYmMifQ",
            str "VkVWVFZBLmV5SnpkV0lpT2lKaFltTWlmUXNlY3JldA"]]⟩ ∧
    ParseToBytes testRegistry
      (str "VEVTVA.eyJzdWIiOiJhYmMifQ.VkVWVFZBLmV5SnpkV0lpT2lKaFltTWlmUXNlY3JldA")
      (some (resolverFailing (.validation none ValidationErrorMalformed (str "bad kid")))) =
      some ⟨some (str "\x7b\"sub\":\"abc\"\x7d"),
        some (.validation none ValidationErrorMalformed (str "bad kid")),
        [.keyfunc [str "VEVTVA", str "eyJzdWIiOiJhYmMifQ",
            str "VkVWVFZBLmV5SnpkV0lpT2lKaFltTWlmUXNlY3JldA"]]⟩ :=
  ⟨keyResolverFailure {} testRegistry
    (str "VEVTVA.eyJzdWIiOiJhYmMifQ.VkVWVFZBLmV5SnpkV0lpT2lKaFltTWlmUXNlY3JldA")
    (resolverFailing (.foreign (str "no key"))) (str "VEVTVA") (str "eyJzdWIiOiJhYmMifQ")
    (str "VkVWVFZBLmV5SnpkV0lpT2lKaFltTWlmUXNlY3JldA") testMethod (.foreign (str "no key"))
    (by decide) rfl rfl (Or.inl rfl) rfl,
  keyResolverFailure {} testRegistry
    (str "VEVTVA.eyJzdWIiOiJhYmMifQ.VkVWVFZBLmV5SnpkV0lpT2lKaFltTWlmUXNlY3JldA")
    (resolverFailing (.validation none ValidationErrorMalformed (str "bad kid")))
    (str "VEVTVA") (str "eyJzdWIiOiJhYmMifQ")
    (str "VkVWVFZBLmV5SnpkV0lpT2lKaFltTWlmUXNlY3JldA") testMethod
    (.validation none ValidationErrorMalformed (str "bad kid"))
    (by decide) rfl rfl (Or.inl rfl) rfl⟩

/-! ## More on the two parse functions -/

/-- Every error of `ParseBytesUnverified` has kind `Malformed` or
`Unverifiable`, and comes with no signing method. -/
theorem PBU_err_kinds {Key : Type} (p : Parser) (reg : Registry Key) (tok : GoString)
    (e : GoError) (h : (p.ParseBytesUnverified reg tok).err = some e) :
    (e.kinds = ValidationErrorMalformed ∨ e.kinds = ValidationErrorUnverifiable) ∧
      (p.ParseBytesUnverified reg tok).signingMethod = none := by
  by_cases hl : (Split tok 46).length = 3
  · obtain ⟨p0, p1, p2, hs⟩ := length_eq_three _ hl
    cases h0 : (DecodeSegment p0).2 with
    | some e0 =>
      cases hb : hasBearerPrefix tok with
      | true =>
        rw [PBU_header_bearer p reg tok p0 p1 p2 e0 hs h0 hb] at h ⊢
        simp only [Option.some.injEq] at h
        subst h
        exact ⟨Or.inl rfl, rfl⟩
      | false =>
        rw [PBU_header p reg tok p0 p1 p2 e0 hs h0 hb] at h ⊢
        simp only [Option.some.injEq] at h
        subst h
        exact ⟨Or.inl rfl, rfl⟩
    | none =>
      cases h1 : (DecodeSegment p1).2 with
      | some e1 =>
        rw [PBU_payload p reg tok p0 p1 p2 e1 hs h0 h1] at h ⊢
        simp only [Option.some.injEq] at h
        subst h
        exact ⟨Or.inl rfl, rfl⟩
      | none =>
        cases hr : reg (DecodeSegment p0).1 with
        | none =>
          rw [PBU_unregistered p reg tok p0 p1 p2 hs h0 h1 hr] at h ⊢
          simp only [Option.some.injEq] at h
          subst h
          exact ⟨Or.inr rfl, rfl⟩
        | some m =>
          rw [PBU_accepted p reg tok p0 p1 p2 m hs h0 h1 hr] at h
          simp at h
  · rw [PBU_segments p reg tok hl] at h ⊢
    simp only [Option.some.injEq] at h
    subst h
    exact ⟨Or.inl rfl, rfl⟩

/-- C11: payload returned on failure. For every token with exactly three
segments whose header and payload segments both decode, `ParseToBytes`
returns the decoded payload bytes `DecodeSegment(parts[1])`, with or without
an error, whatever the signature segment, the registry, the key resolver,
the allow-list and the outcome of `Verify` are. -/
theorem payload_returned_always {Key : Type} (p : Parser) (reg : Registry Key)
    (tok : GoString) (keyfunc : Option (KeyBufFunc Key)) (p0 p1 p2 : GoString)
    (hs : Split tok 46 = [p0, p1, p2])
    (h0 : (DecodeSegment p0).2 = none) (h1 : (DecodeSegment p1).2 = none) :
    ∃ r, p.ParseToBytes reg tok keyfunc = some r ∧ r.buf = some (DecodeSegment p1).1 := by
  cases hr : reg (DecodeSegment p0).1 with
  | none =>
    have hU := PBU_unregistered p reg tok p0 p1 p2 hs h0 h1 hr
    have hP := PTB_rejected p reg tok keyfunc _ (by rw [hU])
    rw [hU] at hP
    exact ⟨_, hP, rfl⟩
  | some m =>
    have hU := PBU_accepted p reg tok p0 p1 p2 m hs h0 h1 hr
    cases keyfunc with
    | none =>
      have hP := PTB_no_keyfunc p reg tok (by rw [hU])
      rw [hU] at hP
      exact ⟨_, hP, rfl⟩
    | some kf =>
      rcases PTB_accepted_cases p reg tok kf p0 p1 p2 m hU with
        ⟨ms, _, _, hP⟩ | ⟨_, e, _, hP⟩ | ⟨_, _, q0, q1, q2, _, hP⟩
      · exact ⟨_, hP, rfl⟩
      · exact ⟨_, hP, rfl⟩
      · exact ⟨_, hP, rfl⟩

/-- C11, at the token signed with `TEST` whose signature was changed, and
at a token whose algorithm is not registered, with no key resolver. -/
theorem payload_returned_always_witness :
    (∃ r, ParseToBytes testRegistry
      (str "VEVTVA.eyJzdWIiOiJhYmMifQ.VkVWVFZBLmV5SnpkV0lpT2lKaFltTWlmUXNlY3JldB")
      (some (resolverReturning (str "secret"))) = some r ∧
      r.buf = some (DecodeSegment (str "eyJzdWIiOiJhYmMifQ")).1) ∧
    (∃ r, ParseToBytes testRegistry (str "QQ.eyJzdWIiOiJhYmMifQ.c") none = some r ∧
      r.buf = some (DecodeSegment (str "eyJzdWIiOiJhYmMifQ")).1) ∧
    (DecodeSegment (str "eyJzdWIiOiJhYmMifQ")).1 = str "\x7b\"sub\":\"abc\"\x7d" :=
  ⟨payload_returned_always {} testRegistry
    (str "VEVTVA.eyJzdWIiOiJhYmMifQ.VkVWVFZBLmV5SnpkV0lpT2lKaFltTWlmUXNlY3JldB")
    (some (resolverReturning (str "secret"))) (str "VEVTVA") (str "eyJzdWIiOiJhYmMifQ")
    (str "VkVWVFZBLmV5SnpkV0lpT2lKaFltTWlmUXNlY3JldB") (by decide) rfl rfl,
  payload_returned_always {} testRegistry (str "QQ.eyJzdWIiOiJhYmMifQ.c") none
    (str "QQ") (str "eyJzdWIiOiJhYmMifQ") (str "c") (by decide) rfl rfl,
  by decide⟩

/-- C12: bearer-prefix diagnostic. For a token with exactly three segments
whose header segment fails to decode with `e`, `ParseBytesUnverified` fails
with kind `Malformed`, no payload bytes and no method: when the token,
lower-cased, starts with `bearer ` the error has the message
`tokenstring should not contain 'bearer '` and no wrapped cause, and
otherwise it wraps `e` and has no message; the two errors differ. -/
theorem bearerPrefix_diagnostic {Key : Type} (p : Parser) (reg : Registry Key)
    (tok : GoString) (p0 p1 p2 : GoString) (e : GoError)
    (hs : Split tok 46 = [p0, p1, p2]) (h0 : (DecodeSegment p0).2 = some e) :
    p.ParseBytesUnverified reg tok = ⟨none, [p0, p1, p2], none,
      some (if hasBearerPrefix tok = true then
        GoError.validation none ValidationErrorMalformed
          (str "tokenstring should not contain 'bearer '")
      else GoError.validation (some e) ValidationErrorMalformed [])⟩ ∧
    GoError.validation none ValidationErrorMalformed
        (str "tokenstring should not contain 'bearer '") ≠
      GoError.validation (some e) ValidationErrorMalformed [] := by
  refine ⟨?_, ?_⟩
  · cases hb : hasBearerPrefix tok with
    | true => rw [PBU_header_bearer p reg tok p0 p1 p2 e hs h0 hb]; rfl
    | false => rw [PBU_header p reg tok p0 p1 p2 e hs h0 hb]; rfl
  · intro h
    injection h with h1 _ _
    exact Option.noConfusion h1

/-- C12, at a token with the prefix `Bearer ` and at a token whose header
has a character outside the alphabet. -/
theorem bearerPrefix_diagnostic_witness :
    (({} : Parser).ParseBytesUnverified testRegistry (str "Bearer VEVTVA.eyJzdWIiOiJhYmMifQ.c")).err
      = some (GoError.validation none ValidationErrorMalformed
          (str "tokenstring should not contain 'bearer '")) ∧
    (({} : Parser).ParseBytesUnverified testRegistry (str "VEV!VA.eyJzdWIiOiJhYmMifQ.c")).err
      = some (GoError.validation (some (.corruptInput 3)) ValidationErrorMalformed []) :=
  ⟨by rw [(bearerPrefix_diagnostic {} testRegistry (str "Bearer VEVTVA.eyJzdWIiOiJhYmMifQ.c")
      (str "Bearer VEVTVA") (str "eyJzdWIiOiJhYmMifQ") (str "c") (.corruptInput 6)
      (by decide) rfl).1]; rfl,
   by rw [(bearerPrefix_diagnostic {} testRegistry (str "VEV!VA.eyJzdWIiOiJhYmMifQ.c")
      (str "VEV!VA") (str "eyJzdWIiOiJhYmMifQ") (str "c") (.corruptInput 3)
      (by decide) rfl).1]; rfl⟩

/-- C13: `SignedBuf` calls `Sign` on
`EncodeSegment(bytes of Alg()) + "." + EncodeSegment(P)` with the key `K`;
when `Sign` returns the signature `sig` and no error the result is that
signing input, a `.` and `sig`, with no error; when `Sign` fails with `e`
the result is the empty text and `e`, unchanged. -/
theorem SignedBuf_output {Key : Type} (P : Bytes) (K : Key) (M : SigningMethod Key) :
    (∀ sig, M.Sign (EncodeSegment M.Alg ++ str "." ++ EncodeSegment P) K = (sig, none) →
      SignedBuf P K M =
        (EncodeSegment M.Alg ++ str "." ++ EncodeSegment P ++ str "." ++ sig, none)) ∧
    (∀ sig e, M.Sign (EncodeSegment M.Alg ++ str "." ++ EncodeSegment P) K = (sig, some e) →
      SignedBuf P K M = ([], some e)) := by
  refine ⟨?_, ?_⟩
  · intro sig h
    simp only [SignedBuf, h, Join_two]
    simp [str_dot]
  · intro sig e h
    simp only [SignedBuf, h]

/-- C13, at the payload `{"sub":"abc"}`, the key `secret` and `TEST`. -/
theorem SignedBuf_output_witness :
    SignedBuf (str "\x7b\"sub\":\"abc\"\x7d") (str "secret") testMethod =
      (EncodeSegment testMethod.Alg ++ str "." ++
        EncodeSegment (str "\x7b\"sub\":\"abc\"\x7d") ++ str "." ++
        str "VkVWVFZBLmV5SnpkV0lpT2lKaFltTWlmUXNlY3JldA", none) :=
  (SignedBuf_output (str "\x7b\"sub\":\"abc\"\x7d") (str "secret") testMethod).1
    (str "VkVWVFZBLmV5SnpkV0lpT2lKaFltTWlmUXNlY3JldA") rfl

/-- C14: payload decode failure. For a token with exactly three segments
whose header segment decodes and whose payload segment fails to decode with
`e`, `ParseBytesUnverified` fails with kinds exactly `Malformed` and wrapped
cause `e`, returns nil payload bytes and no signing method, and the result
is the same for every registry. -/
theorem payloadDecodeFailure_Malformed {Key : Type} (p : Parser) (reg : Registry Key)
    (tok : GoString) (p0 p1 p2 : GoString) (e : GoError)
    (hs : Split tok 46 = [p0, p1, p2])
    (h0 : (DecodeSegment p0).2 = none) (h1 : (DecodeSegment p1).2 = some e) :
    p.ParseBytesUnverified reg tok = ⟨none, [p0, p1, p2], none,
      some (GoError.validation (some e) ValidationErrorMalformed [])⟩ ∧
    ∀ reg1 : Registry Key, p.ParseBytesUnverified reg1 tok = p.ParseBytesUnverified reg tok := by
  have hU := PBU_payload p reg tok p0 p1 p2 e hs h0 h1
  refine ⟨hU, ?_⟩
  intro reg1
  rw [hU, PBU_payload p reg1 tok p0 p1 p2 e hs h0 h1]

/-- C14, at a token whose header names the registered `TEST` and whose
payload segment holds `!`. -/
theorem payloadDecodeFailure_Malformed_witness :
    ({} : Parser).ParseBytesUnverified testRegistry (str "VEVTVA.eyJ!.c") =
      ⟨none, [str "VEVTVA", str "eyJ!", str "c"], none,
        some (GoError.validation (some (.corruptInput 3)) ValidationErrorMalformed [])⟩ :=
  (payloadDecodeFailure_Malformed {} testRegistry (str "VEVTVA.eyJ!.c") (str "VEVTVA")
    (str "eyJ!") (str "c") (.corruptInput 3) (by decide) rfl rfl).1

/-- C17: single failure kind. Every error that `ParseToBytes` returns has
kinds equal to exactly one of `Malformed`, `Unverifiable` and
`SignatureInvalid`, three different single bits, unless it is a
`ValidationError` that the key resolver returned for the raw parts. -/
theorem single_failure_kind {Key : Type} (p : Parser) (reg : Registry Key)
    (tok : GoString) (keyfunc : Option (KeyBufFunc Key)) (r : Parsed Key) (e : GoError)
    (hr : p.ParseToBytes reg tok keyfunc = some r) (he : r.err = some e) :
    ((e.kinds = ValidationErrorMalformed ∨ e.kinds = ValidationErrorUnverifiable ∨
        e.kinds = ValidationErrorSignatureInvalid) ∨
      ∃ kf, keyfunc = some kf ∧ (kf (Split tok 46)).err = some e ∧
        e.asValidationError.isSome = true) ∧
    ValidationErrorMalformed = 2 ^ 0 ∧ ValidationErrorUnverifiable = 2 ^ 1 ∧
      ValidationErrorSignatureInvalid = 2 ^ 2 := by
  refine ⟨?_, by decide, by decide, by decide⟩
  cases hU : (p.ParseBytesUnverified reg tok).err with
  | some e0 =>
    rw [PTB_rejected p reg tok keyfunc e0 hU] at hr
    simp only [Option.some.injEq] at hr
    subst hr
    simp only [Option.some.injEq] at he
    subst he
    rcases (PBU_err_kinds p reg tok e0 hU).1 with h | h
    · exact Or.inl (Or.inl h)
    · exact Or.inl (Or.inr (Or.inl h))
  | none =>
    obtain ⟨p0, p1, p2, m, hs, h0, h1, hreg, hPBU⟩ := PBU_accepts p reg tok hU
    cases keyfunc with
    | none =>
      rw [PTB_no_keyfunc p reg tok hU] at hr
      simp only [Option.some.injEq] at hr
      subst hr
      simp only [Option.some.injEq] at he
      subst he
      exact Or.inl (Or.inr (Or.inl rfl))
    | some kf =>
      rcases PTB_accepted_cases p reg tok kf p0 p1 p2 m hPBU with
        ⟨ms, _, _, hP⟩ | ⟨_, e1, hk, hP⟩ | ⟨_, _, q0, q1, q2, _, hP⟩
      · rw [hP] at hr
        simp only [Option.some.injEq] at hr
        subst hr
        simp only [Option.some.injEq] at he
        subst he
        exact Or.inl (Or.inr (Or.inr rfl))
      · rw [hP] at hr
        simp only [Option.some.injEq] at hr
        subst hr
        simp only [Option.some.injEq] at he
        cases hv : e1.asValidationError.isSome with
        | true =>
          rw [hv] at he
          simp only [if_true] at he
          subst he
          exact Or.inr ⟨kf, rfl, by rw [hs]; exact hk, hv⟩
        | false =>
          rw [hv] at he
          simp only [Bool.false_eq_true, if_false] at he
          subst he
          exact Or.inl (Or.inr (Or.inl rfl))
      · rw [hP] at hr
        simp only [Option.some.injEq] at hr
        subst hr
        cases hver : m.Verify (q0 ++ str "." ++ q1) q2 (kf [p0, p1, p2]).key with
        | none =>
          rw [hver] at he
          simp at he
        | some e2 =>
          rw [hver] at he
          simp only [Option.map_some', Option.some.injEq] at he
          subst he
          exact Or.inl (Or.inr (Or.inr rfl))

/-- C17, at the token signed with `TEST` whose signature was changed: the
error of `ParseToBytes` has the single kind `SignatureInvalid`. -/
theorem single_failure_kind_witness :
    ParseToBytes testRegistry
      (str "VEVTVA.eyJzdWIiOiJhYmMifQ.VkVWVFZBLmV5SnpkV0lpT2lKaFltTWlmUXNlY3JldB")
      (some (resolverReturning (str "secret"))) =
      some ⟨some (str "\x7b\"sub\":\"abc\"\x7d"),
        some (GoError.validation (some (.foreign (str "signature is invalid")))
          ValidationErrorSignatureInvalid []),
        [.keyfunc [str "VEVTVA", str "eyJzdWIiOiJhYmMifQ",
            str "VkVWVFZBLmV5SnpkV0lpT2lKaFltTWlmUXNlY3JldB"],
          .verify (str "VEVTVA.eyJzdWIiOiJhYmMifQ")
            (str "VkVWVFZBLmV5SnpkV0lpT2lKaFltTWlmUXNlY3JldB") (str "secret")]⟩ ∧
    (((GoError.validation (some (.foreign (str "signature is invalid")))
          ValidationErrorSignatureInvalid []).kinds = ValidationErrorMalformed ∨
        (GoError.validation (some (.foreign (str "signature is invalid")))
          ValidationErrorSignatureInvalid []).kinds = ValidationErrorUnverifiable ∨
        (GoError.validation (some (.foreign (str "signature is invalid")))
          ValidationErrorSignatureInvalid []).kinds = ValidationErrorSignatureInvalid) ∨
      ∃ kf, some (resolverReturning (str "secret")) = some kf ∧
        (kf (Split
          (str "VEVTVA.eyJzdWIiOiJhYmMifQ.VkVWVFZBLmV5SnpkV0lpT2lKaFltTWlmUXNlY3JldB") 46)).err =
          some (GoError.validation (some (.foreign (str "signature is invalid")))
            ValidationErrorSignatureInvalid []) ∧
        (GoError.validation (some (.foreign (str "signature is invalid")))
          ValidationErrorSignatureInvalid []).asValidationError.isSome = true) :=
  ⟨rfl, (single_failure_kind {} testRegistry
    (str "VEVTVA.eyJzdWIiOiJhYmMifQ.VkVWVFZBLmV5SnpkV0lpT2lKaFltTWlmUXNlY3JldB")
    (some (resolverReturning (str "secret")))
    ⟨some (str "\x7b\"sub\":\"abc\"\x7d"),
      some (GoError.validation (some (.foreign (str "signature is invalid")))
        ValidationErrorSignatureInvalid []),
      [.keyfunc [str "VEVTVA", str "eyJzdWIiOiJhYmMifQ",
          str "VkVWVFZBLmV5SnpkV0lpT2lKaFltTWlmUXNlY3JldB"],
        .verify (str "VEVTVA.eyJzdWIiOiJhYmMifQ")
          (str "VkVWVFZBLmV5SnpkV0lpT2lKaFltTWlmUXNlY3JldB") (str "secret")]⟩
    (GoError.validation (some (.foreign (str "signature is invalid")))
      ValidationErrorSignatureInvalid []) rfl rfl).1⟩

/-! ## Split and Join -/

theorem Split_ne_nil (s : GoString) (sep : UInt8) : Split s sep ≠ [] := by
  intro h
  have := Split_length s sep
  rw [h] at this
  simp at this

theorem intercalate_cons_cons (sep a b : GoString) (l : List GoString) :
    sep.intercalate (a :: b :: l) = a ++ sep ++ sep.intercalate (b :: l) := by
  simp [List.intercalate, List.intersperse]

theorem Join_Split (s : GoString) : Join (Split s 46) (str ".") = s := by
  unfold Join
  rw [str_dot]
  induction s with
  | nil => simp [Split, List.intercalate]
  | cons c rest ih =>
    cases hs : Split rest 46 with
    | nil => exact absurd hs (Split_ne_nil rest 46)
    | cons part parts =>
      rw [hs] at ih
      by_cases hc : c = 46
      · subst hc
        simp only [Split, if_true, hs]
        rw [intercalate_cons_cons, ih]
        rfl
      · simp only [Split, hc, if_false, hs]
        cases parts with
        | nil =>
          simp only [List.intercalate, List.intersperse, List.flatten, List.append_nil] at ih ⊢
          rw [ih]
        | cons q qs =>
          rw [intercalate_cons_cons] at ih ⊢
          rw [← ih]
          simp

/-- A signing method is returned exactly when no error is. -/
theorem PBU_method_iff {Key : Type} (p : Parser) (reg : Registry Key) (tok : GoString) :
    (p.ParseBytesUnverified reg tok).signingMethod.isSome = true ↔
      (p.ParseBytesUnverified reg tok).err = none := by
  cases h : (p.ParseBytesUnverified reg tok).err with
  | none =>
    obtain ⟨p0, p1, p2, m, _, _, _, _, hU⟩ := PBU_accepts p reg tok h
    simp [hU]
  | some e =>
    simp [(PBU_err_kinds p reg tok e h).2]

/-- C15, as stated, fails: the header of `QQ.eyJzdWIiOiJhYmMifQ.c` decodes
to the bytes `A`, and with `TEST` registered under the name `A` the token is
accepted, but none of the values returned is the decoded header: the bytes
returned are the payload, the parts are the raw segments, and the method's
`Alg()` is `TEST`. -/
theorem ParseBytesUnverified_header_counterexample :
    DecodeSegment (str "QQ") = (str "A", none) ∧
    ({} : Parser).ParseBytesUnverified aliasRegistry (str "QQ.eyJzdWIiOiJhYmMifQ.c") =
      ⟨some (str "\x7b\"sub\":\"abc\"\x7d"), [str "QQ", str "eyJzdWIiOiJhYmMifQ", str "c"],
        some testMethod, none⟩ ∧
    str "\x7b\"sub\":\"abc\"\x7d" ≠ str "A" ∧
    str "A" ∉ [str "QQ", str "eyJzdWIiOiJhYmMifQ", str "c"] ∧
    testMethod.Alg ≠ str "A" :=
  ⟨rfl, rfl, by decide, by decide, by decide⟩

/-- C15, amended: whenever `ParseBytesUnverified` returns no error, the
token splits into three parts that joined with `.` give back the token, the
header and payload segments decode, and the values returned are the decoded
payload bytes, the three raw parts and the method the registry holds for the
decoded header; a signing method is returned if and only if no error is. -/
theorem ParseBytesUnverified_success {Key : Type} (p : Parser) (reg : Registry Key)
    (tok : GoString) :
    ((p.ParseBytesUnverified reg tok).signingMethod.isSome = true ↔
      (p.ParseBytesUnverified reg tok).err = none) ∧
    ((p.ParseBytesUnverified reg tok).err = none →
      ∃ p0 p1 p2, Split tok 46 = [p0, p1, p2] ∧ Join [p0, p1, p2] (str ".") = tok ∧
        (DecodeSegment p0).2 = none ∧ (DecodeSegment p1).2 = none ∧
        (reg (DecodeSegment p0).1).isSome = true ∧
        p.ParseBytesUnverified reg tok =
          ⟨some (DecodeSegment p1).1, [p0, p1, p2], reg (DecodeSegment p0).1, none⟩) := by
  refine ⟨PBU_method_iff p reg tok, ?_⟩
  intro h
  obtain ⟨p0, p1, p2, m, hs, h0, h1, hr, hU⟩ := PBU_accepts p reg tok h
  refine ⟨p0, p1, p2, hs, ?_, h0, h1, by rw [hr]; rfl, by rw [hU, hr]⟩
  rw [← hs]
  exact Join_Split tok

/-- C15, amended, at the token signed with `TEST`. -/
theorem ParseBytesUnverified_success_witness :
    ∃ p0 p1 p2,
      Split (str "VEVTVA.eyJzdWIiOiJhYmMifQ.VkVWVFZBLmV5SnpkV0lpT2lKaFltTWlmUXNlY3JldA") 46 =
        [p0, p1, p2] ∧
      Join [p0, p1, p2] (str ".") =
        str "VEVTVA.eyJzdWIiOiJhYmMifQ.VkVWVFZBLmV5SnpkV0lpT2lKaFltTWlmUXNlY3JldA" ∧
      (DecodeSegment p0).2 = none ∧ (DecodeSegment p1).2 = none ∧
      (testRegistry (DecodeSegment p0).1).isSome = true ∧
      ({} : Parser).ParseBytesUnverified testRegistry
        (str "VEVTVA.eyJzdWIiOiJhYmMifQ.VkVWVFZBLmV5SnpkV0lpT2lKaFltTWlmUXNlY3JldA") =
        ⟨some (DecodeSegment p1).1, [p0, p1, p2], testRegistry (DecodeSegment p0).1, none⟩ :=
  (ParseBytesUnverified_success {} testRegistry
    (str "VEVTVA.eyJzdWIiOiJhYmMifQ.VkVWVFZBLmV5SnpkV0lpT2lKaFltTWlmUXNlY3JldA")).2 rfl

/-! ## The shape of the unpadded encoding -/

theorem EncodeSegment_nil : EncodeSegment [] = [] := by decide

theorem EncodeSegment_one (a : UInt8) :
    EncodeSegment [a] = [encodeChar ((a.toNat * 2 ^ 16) / 2 ^ 18 % 64),
      encodeChar ((a.toNat * 2 ^ 16) / 2 ^ 12 % 64)] := by
  have hlt : ∀ n : Nat, n % 64 < 64 := fun n => Nat.mod_lt n (by decide)
  have h := TrimRightPad_append_replicate
    [encodeChar ((a.toNat * 2 ^ 16) / 2 ^ 18 % 64), encodeChar ((a.toNat * 2 ^ 16) / 2 ^ 12 % 64)]
    2 (by
      intro c hc
      simp only [List.mem_cons, List.mem_nil_iff, or_false] at hc
      rcases hc with rfl | rfl
      · exact encodeChar_ne_pad ⟨_, hlt _⟩
      · exact encodeChar_ne_pad ⟨_, hlt _⟩)
  simpa [EncodeSegment, EncodeToString, List.replicate] using h

theorem EncodeSegment_two (a b : UInt8) :
    EncodeSegment [a, b] = [encodeChar ((a.toNat * 2 ^ 16 + b.toNat * 2 ^ 8) / 2 ^ 18 % 64),
      encodeChar ((a.toNat * 2 ^ 16 + b.toNat * 2 ^ 8) / 2 ^ 12 % 64),
      encodeChar ((a.toNat * 2 ^ 16 + b.toNat * 2 ^ 8) / 2 ^ 6 % 64)] := by
  have hlt : ∀ n : Nat, n % 64 < 64 := fun n => Nat.mod_lt n (by decide)
  have h := TrimRightPad_append_replicate
    [encodeChar ((a.toNat * 2 ^ 16 + b.toNat * 2 ^ 8) / 2 ^ 18 % 64),
      encodeChar ((a.toNat * 2 ^ 16 + b.toNat * 2 ^ 8) / 2 ^ 12 % 64),
      encodeChar ((a.toNat * 2 ^ 16 + b.toNat * 2 ^ 8) / 2 ^ 6 % 64)]
    1 (by
      intro c hc
      simp only [List.mem_cons, List.mem_nil_iff, or_false] at hc
      rcases hc with rfl | rfl | rfl
      · exact encodeChar_ne_pad ⟨_, hlt _⟩
      · exact encodeChar_ne_pad ⟨_, hlt _⟩
      · exact encodeChar_ne_pad ⟨_, hlt _⟩)
  simpa [EncodeSegment, EncodeToString, List.replicate] using h

theorem EncodeSegment_three (a b c : UInt8) (rest : Bytes) :
    EncodeSegment (a :: b :: c :: rest) =
      encodeChar ((a.toNat * 2 ^ 16 + b.toNat * 2 ^ 8 + c.toNat) / 2 ^ 18 % 64) ::
      encodeChar ((a.toNat * 2 ^ 16 + b.toNat * 2 ^ 8 + c.toNat) / 2 ^ 12 % 64) ::
      encodeChar ((a.toNat * 2 ^ 16 + b.toNat * 2 ^ 8 + c.toNat) / 2 ^ 6 % 64) ::
      encodeChar ((a.toNat * 2 ^ 16 + b.toNat * 2 ^ 8 + c.toNat) % 64) ::
      EncodeSegment rest := by
  have hlt : ∀ n : Nat, n % 64 < 64 := fun n => Nat.mod_lt n (by decide)
  obtain ⟨body, hb, he⟩ := EncodeToString_shape rest
  have hp : ∀ x ∈ body, x ≠ padChar := by
    intro x hx
    obtain ⟨i, hi, rfl⟩ := hb x hx
    exact encodeChar_ne_pad ⟨i, hi⟩
  have hrest : EncodeSegment rest = body := by
    rw [EncodeSegment, he, TrimRightPad_append_replicate body _ hp]
  have h := TrimRightPad_append_replicate
    (encodeChar ((a.toNat * 2 ^ 16 + b.toNat * 2 ^ 8 + c.toNat) / 2 ^ 18 % 64) ::
      encodeChar ((a.toNat * 2 ^ 16 + b.toNat * 2 ^ 8 + c.toNat) / 2 ^ 12 % 64) ::
      encodeChar ((a.toNat * 2 ^ 16 + b.toNat * 2 ^ 8 + c.toNat) / 2 ^ 6 % 64) ::
      encodeChar ((a.toNat * 2 ^ 16 + b.toNat * 2 ^ 8 + c.toNat) % 64) :: body)
    ((4 - body.length % 4) % 4) (by
      intro x hx
      simp only [List.mem_cons] at hx
      rcases hx with rfl | rfl | rfl | rfl | hx
      · exact encodeChar_ne_pad ⟨_, hlt _⟩
      · exact encodeChar_ne_pad ⟨_, hlt _⟩
      · exact encodeChar_ne_pad ⟨_, hlt _⟩
      · exact encodeChar_ne_pad ⟨_, hlt _⟩
      · exact hp x hx)
  rw [hrest]
  rw [← h]
  simp only [EncodeSegment, EncodeToString, he, List.cons_append]

theorem EncodeSegment_length : ∀ b : Bytes, (EncodeSegment b).length = (4 * b.length + 2) / 3
  | [] => by rw [EncodeSegment_nil]; rfl
  | [a] => by rw [EncodeSegment_one]; simp
  | [a, b] => by rw [EncodeSegment_two]; simp
  | a :: b :: c :: rest => by
    rw [EncodeSegment_three]
    simp only [List.length_cons]
    rw [EncodeSegment_length rest]
    omega

theorem encodeChar_alphabet : ∀ i : Fin 64,
    ((65 ≤ encodeChar i.val ∧ encodeChar i.val ≤ 90) ∨
      (97 ≤ encodeChar i.val ∧ encodeChar i.val ≤ 122) ∨
      (48 ≤ encodeChar i.val ∧ encodeChar i.val ≤ 57) ∨
      encodeChar i.val = 45 ∨ encodeChar i.val = 95) := by
  decide

theorem EncodeSegment_padded (b : Bytes) :
    EncodeToString b =
      EncodeSegment b ++ List.replicate ((4 - (EncodeSegment b).length % 4) % 4) padChar := by
  obtain ⟨body, hb, he⟩ := EncodeToString_shape b
  have hp : ∀ x ∈ body, x ≠ padChar := by
    intro x hx
    obtain ⟨i, hi, rfl⟩ := hb x hx
    exact encodeChar_ne_pad ⟨i, hi⟩
  have hrest : EncodeSegment b = body := by
    rw [EncodeSegment, he, TrimRightPad_append_replicate body _ hp]
  rw [hrest]
  exact he

/-- C16: for every byte sequence `b` of length `n`, `EncodeSegment(b)` is
the padded base64url encoding of `b` without its trailing `=` characters:
it has length `ceil(4n/3)`, every character of it is one of `A`-`Z`,
`a`-`z`, `0`-`9`, `-` and `_`, and so it holds neither `=` nor `.`. -/
theorem EncodeSegment_shape (b : Bytes) :
    EncodeToString b =
      EncodeSegment b ++ List.replicate ((4 - (EncodeSegment b).length % 4) % 4) padChar ∧
    (EncodeSegment b).length = (4 * b.length + 2) / 3 ∧
    (∀ c ∈ EncodeSegment b, (65 ≤ c ∧ c ≤ 90) ∨ (97 ≤ c ∧ c ≤ 122) ∨ (48 ≤ c ∧ c ≤ 57) ∨
      c = 45 ∨ c = 95) ∧
    (61 : UInt8) ∉ EncodeSegment b ∧ (46 : UInt8) ∉ EncodeSegment b := by
  refine ⟨EncodeSegment_padded b, EncodeSegment_length b, ?_, ?_, EncodeSegment_no_dot b⟩
  · intro c hc
    obtain ⟨i, hi, rfl⟩ := EncodeSegment_chars b c hc
    exact encodeChar_alphabet ⟨i, hi⟩
  · intro h
    obtain ⟨i, hi, he⟩ := EncodeSegment_chars b 61 h
    exact encodeChar_ne_pad ⟨i, hi⟩ he.symm

/-! ## Characters the decoder rejects -/

theorem forall_byte (P : UInt8 → Prop) (h : ∀ n : Fin 256, P (UInt8.ofNat n.val)) (c : UInt8) :
    P c := by
  have h1 := h ⟨c.toNat, UInt8.toNat_lt_size c⟩
  simp only at h1
  rwa [ofNat_toNat_byte] at h1

theorem lowerByte_space (c : UInt8) : lowerByte c = 32 → c = 32 :=
  forall_byte (fun c => lowerByte c = 32 → c = 32) (by decide) c

theorem skipNewlines_mem (c : UInt8) (h10 : c ≠ 10) (h13 : c ≠ 13) :
    ∀ (rest : List UInt8) (si : Nat), c ∈ rest → c ∈ (skipNewlines rest si).1 := by
  intro rest
  induction rest with
  | nil => intro si h; simp at h
  | cons x xs ih =>
    intro si h
    by_cases hx : x = 10 ∨ x = 13
    · have hcx : c ≠ x := by
        rcases hx with hx | hx
        · rw [hx]; exact h10
        · rw [hx]; exact h13
      have hc : c ∈ xs := by
        rcases List.mem_cons.mp h with h | h
        · exact absurd h hcx
        · exact h
      simp only [skipNewlines, hx, if_true]
      exact ih (si + 1) hc
    · simp only [skipNewlines, hx, if_false]
      exact h

theorem decodeFinish_bad (c : UInt8) (h10 : c ≠ 10) (h13 : c ≠ 13) (dbuf : List Nat)
    (out : Bytes) (rest : List UInt8) (si : Nat) (hc : c ∈ rest) :
    (decodeFinish dbuf out rest si).2 ≠ none := by
  have hm := skipNewlines_mem c h10 h13 rest si hc
  unfold decodeFinish
  rcases hsk : skipNewlines rest si with ⟨l, si1⟩
  rw [hsk] at hm
  cases l with
  | nil => simp at hm
  | cons y ys => simp

/-- A byte outside the alphabet that is neither a newline nor the padding
character makes the decoder fail, wherever it stands. -/
theorem decodeLoop_bad (c : UInt8) (hd : decodeMap c = 0xff) (h10 : c ≠ 10) (h13 : c ≠ 13)
    (hp : c ≠ padChar) (len : Nat) :
    ∀ (s : List UInt8) (si : Nat) (dbuf : List Nat) (out : Bytes), c ∈ s →
      (decodeLoop len s si dbuf out).2 ≠ none := by
  intro s
  induction s with
  | nil => intro si dbuf out h; simp at h
  | cons x xs ih =>
    intro si dbuf out h
    rw [decodeLoop]
    by_cases hx : decodeMap x ≠ 0xff
    · have hcx : c ≠ x := fun e => hx (e ▸ hd)
      have hc : c ∈ xs := by
        rcases List.mem_cons.mp h with h | h
        · exact absurd h hcx
        · exact h
      rw [if_pos hx]
      split
      · exact ih _ _ _ hc
      · exact ih _ _ _ hc
    · rw [if_neg hx]
      by_cases hn : x = 10 ∨ x = 13
      · have hcx : c ≠ x := by
          rcases hn with hn | hn
          · rw [hn]; exact h10
          · rw [hn]; exact h13
        have hc : c ∈ xs := by
          rcases List.mem_cons.mp h with h | h
          · exact absurd h hcx
          · exact h
        rw [if_pos hn]
        exact ih _ _ _ hc
      · rw [if_neg hn]
        by_cases hxp : x ≠ padChar
        · rw [if_pos hxp]
          simp
        · rw [if_neg hxp]
          have hxe : x = padChar := not_not.mp hxp
          have hc : c ∈ xs := by
            rcases List.mem_cons.mp h with h | h
            · exact absurd (h.trans hxe) hp
            · exact h
          by_cases h2 : dbuf.length < 2
          · rw [if_pos h2]
            simp
          · rw [if_neg h2]
            by_cases h3 : dbuf.length = 2
            · rw [if_pos h3]
              have hm := skipNewlines_mem c h10 h13 xs (si + 1) hc
              rcases hsk : skipNewlines xs (si + 1) with ⟨l, si1⟩
              rw [hsk] at hm
              cases l with
              | nil => simp at hm
              | cons y ys =>
                simp only
                by_cases hy : y ≠ padChar
                · rw [if_pos hy]
                  simp
                · rw [if_neg hy]
                  have hye : y = padChar := not_not.mp hy
                  have hc1 : c ∈ ys := by
                    rcases List.mem_cons.mp hm with h | h
                    · exact absurd (h.trans hye) hp
                    · exact h
                  exact decodeFinish_bad c h10 h13 _ _ _ _ hc1
            · rw [if_neg h3]
              exact decodeFinish_bad c h10 h13 _ _ _ _ hc

theorem DecodeSegment_bad (c : UInt8) (hd : decodeMap c = 0xff) (h10 : c ≠ 10) (h13 : c ≠ 13)
    (hp : c ≠ padChar) (seg : GoString) (hc : c ∈ seg) : (DecodeSegment seg).2 ≠ none := by
  rw [DecodeSegment_eq_DecodeString]
  exact decodeLoop_bad c hd h10 h13 hp _ _ _ _ _ (List.mem_append_left _ hc)

theorem Split_prefix (a b : GoString) (sep : UInt8) (h : sep ∉ a) :
    ∃ hd tl, Split b sep = hd :: tl ∧ Split (a ++ b) sep = (a ++ hd) :: tl := by
  induction a with
  | nil =>
    cases hs : Split b sep with
    | nil => exact absurd hs (Split_ne_nil b sep)
    | cons hd tl => exact ⟨hd, tl, rfl, by simpa using hs⟩
  | cons c rest ih =>
    have hc : c ≠ sep := fun e => h (by simp [e])
    have hr : sep ∉ rest := fun e => h (List.mem_cons_of_mem _ e)
    obtain ⟨hd, tl, h1, h2⟩ := ih hr
    refine ⟨hd, tl, h1, ?_⟩
    simp [Split, hc, h2]

/-- The header segment of a token with the bearer prefix holds a space. -/
theorem bearer_header_space (tok p0 : GoString) (rest : List GoString)
    (hs : Split tok 46 = p0 :: rest) (hb : hasBearerPrefix tok = true) : (32 : UInt8) ∈ p0 := by
  have hmap : (tok.take 7).map lowerByte = str "bearer " := by
    simpa [hasBearerPrefix] using hb
  have h46 : (46 : UInt8) ∉ tok.take 7 := by
    intro h
    have h1 : lowerByte 46 ∈ (tok.take 7).map lowerByte := List.mem_map_of_mem _ h
    rw [hmap] at h1
    exact absurd h1 (by decide)
  have h32 : (32 : UInt8) ∈ tok.take 7 := by
    have h1 : (32 : UInt8) ∈ (tok.take 7).map lowerByte := by
      rw [hmap]
      decide
    obtain ⟨c, hc, hl⟩ := List.mem_map.mp h1
    rw [lowerByte_space c hl] at hc
    exact hc
  obtain ⟨hd, tl, _, h2⟩ := Split_prefix (tok.take 7) (tok.drop 7) 46 h46
  rw [List.take_append_drop, hs] at h2
  simp only [List.cons.injEq] at h2
  rw [h2.1]
  exact List.mem_append_left _ h32

/-- C18: a token that splits into three segments and starts with `bearer `,
compared without case, has a header segment that holds a space and so does
not decode; `ParseBytesUnverified` fails with kind `Malformed` and the
message `tokenstring should not contain 'bearer '`, and `ParseToBytes` fails
with the same error without calling the key resolver or `Verify`. -/
theorem bearerPrefix_always_diagnosed {Key : Type} (p : Parser) (reg : Registry Key)
    (tok : GoString) (keyfunc : Option (KeyBufFunc Key)) (p0 p1 p2 : GoString)
    (hs : Split tok 46 = [p0, p1, p2]) (hb : hasBearerPrefix tok = true) :
    (32 : UInt8) ∈ p0 ∧ (DecodeSegment p0).2 ≠ none ∧
    p.ParseBytesUnverified reg tok = ⟨none, [p0, p1, p2], none,
      some (GoError.validation none ValidationErrorMalformed
        (str "tokenstring should not contain 'bearer '"))⟩ ∧
    p.ParseToBytes reg tok keyfunc = some ⟨none,
      some (GoError.validation none ValidationErrorMalformed
        (str "tokenstring should not contain 'bearer '")), []⟩ := by
  have hsp := bearer_header_space tok p0 [p1, p2] hs hb
  have hne : (DecodeSegment p0).2 ≠ none :=
    DecodeSegment_bad 32 (by decide) (by decide) (by decide) (by decide) p0 hsp
  cases h0 : (DecodeSegment p0).2 with
  | none => exact absurd h0 hne
  | some e =>
    have hU := PBU_header_bearer p reg tok p0 p1 p2 e hs h0 hb
    refine ⟨hsp, by simp, hU, ?_⟩
    rw [PTB_rejected p reg tok keyfunc _ (by rw [hU]), hU]
    rfl

/-- C18, at the token signed with `TEST` behind the prefix `BEARER `. -/
theorem bearerPrefix_always_diagnosed_witness :
    ParseToBytes testRegistry
      (str "BEARER VEVTVA.eyJzdWIiOiJhYmMifQ.VkVWVFZBLmV5SnpkV0lpT2lKaFltTWlmUXNlY3JldA")
      (some (resolverReturning (str "secret"))) = some ⟨none,
      some (GoError.validation none ValidationErrorMalformed
        (str "tokenstring should not contain 'bearer '")), []⟩ :=
  (bearerPrefix_always_diagnosed {} testRegistry
    (str "BEARER VEVTVA.eyJzdWIiOiJhYmMifQ.VkVWVFZBLmV5SnpkV0lpT2lKaFltTWlmUXNlY3JldA")
    (some (resolverReturning (str "secret"))) (str "BEARER VEVTVA")
    (str "eyJzdWIiOiJhYmMifQ") (str "VkVWVFZBLmV5SnpkV0lpT2lKaFltTWlmUXNlY3JldA")
    (by decide) (by decide)).2.2.2

/-! ## Which texts are encodings -/

theorem decodeMap_alphabet (c : UInt8) :
    decodeMap c ≠ 0xff → decodeMap c < 64 ∧ encodeChar (decodeMap c) = c :=
  forall_byte (fun c => decodeMap c ≠ 0xff → decodeMap c < 64 ∧ encodeChar (decodeMap c) = c)
    (by decide) c

theorem decodeLoop_alpha (len : Nat) (c : UInt8) (h : decodeMap c ≠ 0xff) (rest : List UInt8)
    (si : Nat) (dbuf : List Nat) (out : Bytes) :
    decodeLoop len (c :: rest) si dbuf out =
      if dbuf.length = 3 then
        decodeLoop len rest (si + 1) [] (out ++ quantumBytes (dbuf ++ [decodeMap c]))
      else decodeLoop len rest (si + 1) (dbuf ++ [decodeMap c]) out := by
  rw [decodeLoop, if_pos h]

/-- A text of alphabet characters that the decoder accepts once padded does
not have a length of one more than a multiple of four. -/
theorem accepted_length : ∀ (s : GoString) (len si : Nat) (out : Bytes),
    (∀ c ∈ s, decodeMap c ≠ 0xff) →
    (decodeLoop len (s ++ List.replicate ((4 - s.length % 4) % 4) padChar) si [] out).2 = none →
    s.length % 4 ≠ 1
  | [], _, _, _, _, _ => by simp
  | [c0], len, si, out, ha, h => by
    exfalso
    have h0 := ha c0 (by simp)
    have hp : ¬ (padChar = 10 ∨ padChar = 13) := by decide
    simp only [List.length_singleton, List.cons_append, List.nil_append] at h
    rw [decodeLoop_alpha len c0 h0] at h
    simp only [List.length_nil, List.nil_append] at h
    rw [if_neg (by decide)] at h
    have hr : List.replicate ((4 - 1 % 4) % 4) padChar = [padChar, padChar, padChar] := by decide
    rw [hr, decodeLoop] at h
    simp [decodeMap_pad, hp] at h
  | [_, _], _, _, _, _, _ => by simp
  | [_, _, _], _, _, _, _, _ => by simp
  | c0 :: c1 :: c2 :: c3 :: rest, len, si, out, ha, h => by
    have h0 := ha c0 (by simp)
    have h1 := ha c1 (by simp)
    have h2 := ha c2 (by simp)
    have h3 := ha c3 (by simp)
    have hr : ∀ c ∈ rest, decodeMap c ≠ 0xff := fun c hc => ha c (by simp [hc])
    have hl : (c0 :: c1 :: c2 :: c3 :: rest).length % 4 = rest.length % 4 := by
      simp only [List.length_cons]
      omega
    rw [hl] at h ⊢
    simp only [List.cons_append] at h
    rw [decodeLoop_alpha len c0 h0, if_neg (by simp), decodeLoop_alpha len c1 h1,
      if_neg (by simp), decodeLoop_alpha len c2 h2, if_neg (by simp),
      decodeLoop_alpha len c3 h3, if_pos (by simp)] at h
    exact accepted_length rest len _ _ hr h

theorem getLast?_cons4 (c0 c1 c2 c3 x : UInt8) (xs : List UInt8) :
    (c0 :: c1 :: c2 :: c3 :: x :: xs).getLast? = (x :: xs).getLast? := by
  simp [List.getLast?_cons_cons]

/-- A text of alphabet characters whose length is not one more than a
multiple of four and whose last character has no bit set beyond the last
whole byte is the unpadded encoding of some bytes. -/
theorem canonical_is_encoding : ∀ (s : GoString),
    (∀ c ∈ s, decodeMap c ≠ 0xff) → s.length % 4 ≠ 1 →
    (∀ c, s.getLast? = some c →
      (s.length % 4 = 2 → decodeMap c % 16 = 0) ∧ (s.length % 4 = 3 → decodeMap c % 4 = 0)) →
    ∃ b, EncodeSegment b = s
  | [], _, _, _ => ⟨[], EncodeSegment_nil⟩
  | [c0], _, hl, _ => by simp at hl
  | [c0, c1], ha, _, hb => by
    obtain ⟨l0, e0⟩ := decodeMap_alphabet c0 (ha c0 (by simp))
    obtain ⟨l1, e1⟩ := decodeMap_alphabet c1 (ha c1 (by simp))
    have hz : decodeMap c1 % 16 = 0 := (hb c1 (by simp)).1 (by simp)
    refine ⟨[UInt8.ofNat (decodeMap c0 * 4 + decodeMap c1 / 16)], ?_⟩
    have ht : (UInt8.ofNat (decodeMap c0 * 4 + decodeMap c1 / 16)).toNat =
        decodeMap c0 * 4 + decodeMap c1 / 16 :=
      UInt8.toNat_ofNat_of_lt (by simp only [UInt8.size]; omega)
    rw [EncodeSegment_one, ht]
    have a0 : (decodeMap c0 * 4 + decodeMap c1 / 16) * 2 ^ 16 / 2 ^ 18 % 64 = decodeMap c0 := by
      omega
    have a1 : (decodeMap c0 * 4 + decodeMap c1 / 16) * 2 ^ 16 / 2 ^ 12 % 64 = decodeMap c1 := by
      omega
    rw [a0, a1, e0, e1]
  | [c0, c1, c2], ha, _, hb => by
    obtain ⟨l0, e0⟩ := decodeMap_alphabet c0 (ha c0 (by simp))
    obtain ⟨l1, e1⟩ := decodeMap_alphabet c1 (ha c1 (by simp))
    obtain ⟨l2, e2⟩ := decodeMap_alphabet c2 (ha c2 (by simp))
    have hz : decodeMap c2 % 4 = 0 := (hb c2 (by simp)).2 (by simp)
    refine ⟨[UInt8.ofNat (decodeMap c0 * 4 + decodeMap c1 / 16),
      UInt8.ofNat (decodeMap c1 % 16 * 16 + decodeMap c2 / 4)], ?_⟩
    have ht0 : (UInt8.ofNat (decodeMap c0 * 4 + decodeMap c1 / 16)).toNat =
        decodeMap c0 * 4 + decodeMap c1 / 16 :=
      UInt8.toNat_ofNat_of_lt (by simp only [UInt8.size]; omega)
    have ht1 : (UInt8.ofNat (decodeMap c1 % 16 * 16 + decodeMap c2 / 4)).toNat =
        decodeMap c1 % 16 * 16 + decodeMap c2 / 4 :=
      UInt8.toNat_ofNat_of_lt (by simp only [UInt8.size]; omega)
    rw [EncodeSegment_two, ht0, ht1]
    have a0 : ((decodeMap c0 * 4 + decodeMap c1 / 16) * 2 ^ 16 +
        (decodeMap c1 % 16 * 16 + decodeMap c2 / 4) * 2 ^ 8) / 2 ^ 18 % 64 = decodeMap c0 := by
      omega
    have a1 : ((decodeMap c0 * 4 + decodeMap c1 / 16) * 2 ^ 16 +
        (decodeMap c1 % 16 * 16 + decodeMap c2 / 4) * 2 ^ 8) / 2 ^ 12 % 64 = decodeMap c1 := by
      omega
    have a2 : ((decodeMap c0 * 4 + decodeMap c1 / 16) * 2 ^ 16 +
        (decodeMap c1 % 16 * 16 + decodeMap c2 / 4) * 2 ^ 8) / 2 ^ 6 % 64 = decodeMap c2 := by
      omega
    rw [a0, a1, a2, e0, e1, e2]
  | c0 :: c1 :: c2 :: c3 :: rest, ha, hl, hb => by
    obtain ⟨l0, e0⟩ := decodeMap_alphabet c0 (ha c0 (by simp))
    obtain ⟨l1, e1⟩ := decodeMap_alphabet c1 (ha c1 (by simp))
    obtain ⟨l2, e2⟩ := decodeMap_alphabet c2 (ha c2 (by simp))
    obtain ⟨l3, e3⟩ := decodeMap_alphabet c3 (ha c3 (by simp))
    have hr : ∀ c ∈ rest, decodeMap c ≠ 0xff := fun c hc => ha c (by simp [hc])
    have hlen : (c0 :: c1 :: c2 :: c3 :: rest).length % 4 = rest.length % 4 := by
      simp only [List.length_cons]
      omega
    have hbr : ∀ c, rest.getLast? = some c →
        (rest.length % 4 = 2 → decodeMap c % 16 = 0) ∧
          (rest.length % 4 = 3 → decodeMap c % 4 = 0) := by
      intro c hc
      cases rest with
      | nil => simp at hc
      | cons x xs =>
        have := hb c (by rw [getLast?_cons4]; exact hc)
        rw [hlen] at this
        exact this
    obtain ⟨b, hbe⟩ := canonical_is_encoding rest hr (by rw [← hlen]; exact hl) hbr
    refine ⟨UInt8.ofNat (decodeMap c0 * 4 + decodeMap c1 / 16) ::
      UInt8.ofNat (decodeMap c1 % 16 * 16 + decodeMap c2 / 4) ::
      UInt8.ofNat (decodeMap c2 % 4 * 64 + decodeMap c3) :: b, ?_⟩
    have ht0 : (UInt8.ofNat (decodeMap c0 * 4 + decodeMap c1 / 16)).toNat =
        decodeMap c0 * 4 + decodeMap c1 / 16 :=
      UInt8.toNat_ofNat_of_lt (by simp only [UInt8.size]; omega)
    have ht1 : (UInt8.ofNat (decodeMap c1 % 16 * 16 + decodeMap c2 / 4)).toNat =
        decodeMap c1 % 16 * 16 + decodeMap c2 / 4 :=
      UInt8.toNat_ofNat_of_lt (by simp only [UInt8.size]; omega)
    have ht2 : (UInt8.ofNat (decodeMap c2 % 4 * 64 + decodeMap c3)).toNat =
        decodeMap c2 % 4 * 64 + decodeMap c3 :=
      UInt8.toNat_ofNat_of_lt (by simp only [UInt8.size]; omega)
    rw [EncodeSegment_three, ht0, ht1, ht2, hbe]
    have a0 : ((decodeMap c0 * 4 + decodeMap c1 / 16) * 2 ^ 16 +
        (decodeMap c1 % 16 * 16 + decodeMap c2 / 4) * 2 ^ 8 +
        (decodeMap c2 % 4 * 64 + decodeMap c3)) / 2 ^ 18 % 64 = decodeMap c0 := by omega
    have a1 : ((decodeMap c0 * 4 + decodeMap c1 / 16) * 2 ^ 16 +
        (decodeMap c1 % 16 * 16 + decodeMap c2 / 4) * 2 ^ 8 +
        (decodeMap c2 % 4 * 64 + decodeMap c3)) / 2 ^ 12 % 64 = decodeMap c1 := by omega
    have a2 : ((decodeMap c0 * 4 + decodeMap c1 / 16) * 2 ^ 16 +
        (decodeMap c1 % 16 * 16 + decodeMap c2 / 4) * 2 ^ 8 +
        (decodeMap c2 % 4 * 64 + decodeMap c3)) / 2 ^ 6 % 64 = decodeMap c2 := by omega
    have a3 : ((decodeMap c0 * 4 + decodeMap c1 / 16) * 2 ^ 16 +
        (decodeMap c1 % 16 * 16 + decodeMap c2 / 4) * 2 ^ 8 +
        (decodeMap c2 % 4 * 64 + decodeMap c3)) % 64 = decodeMap c3 := by omega
    rw [a0, a1, a2, a3, e0, e1, e2, e3]

theorem canonical_roundtrip (s : GoString)
    (hpad : padChar ∉ s) (h10 : (10 : UInt8) ∉ s) (h13 : (13 : UInt8) ∉ s)
    (hacc : (DecodeSegment s).2 = none)
    (hbits : ∀ c, s.getLast? = some c →
      (s.length % 4 = 2 → decodeMap c % 16 = 0) ∧ (s.length % 4 = 3 → decodeMap c % 4 = 0)) :
    EncodeSegment (DecodeSegment s).1 = s := by
  have ha : ∀ c ∈ s, decodeMap c ≠ 0xff := by
    intro c hc hd
    exact DecodeSegment_bad c hd (fun e => h10 (e ▸ hc)) (fun e => h13 (e ▸ hc))
      (fun e => hpad (e ▸ hc)) s hc hacc
  have hl : s.length % 4 ≠ 1 := by
    rw [DecodeSegment_eq_DecodeString] at hacc
    exact accepted_length s _ 0 [] ha hacc
  obtain ⟨b, hb⟩ := canonical_is_encoding s ha hl hbits
  rw [← hb, DecodeSegment_EncodeSegment]

/-- C19, as stated, fails: `QR` holds no `=` and decodes to the byte `A`,
whose encoding is `QQ`, so `QQ` and `QR` decode to the same bytes; and
`QUJD` followed by four newlines holds no `=` and decodes to `ABC`, whose
encoding is `QUJD`. -/
theorem canonical_segment_counterexample :
    padChar ∉ str "QR" ∧ DecodeSegment (str "QR") = (str "A", none) ∧
    EncodeSegment (DecodeSegment (str "QR")).1 = str "QQ" ∧ str "QQ" ≠ str "QR" ∧
    DecodeSegment (str "QQ") = DecodeSegment (str "QR") ∧
    padChar ∉ str "QUJD\n\n\n\n" ∧ DecodeSegment (str "QUJD\n\n\n\n") = (str "ABC", none) ∧
    EncodeSegment (DecodeSegment (str "QUJD\n\n\n\n")).1 = str "QUJD" ∧
    str "QUJD" ≠ str "QUJD\n\n\n\n" :=
  ⟨by decide, rfl, by decide, by decide, rfl, by decide, rfl, by decide, by decide⟩

/-- C19, amended: for every text `s` that holds no `=`, no carriage return
and no line feed, that `DecodeSegment` accepts, and whose last character,
when the length leaves a remainder of 2 or 3 modulo four, has no bit set
beyond the last whole byte, `EncodeSegment(DecodeSegment(s)) = s`; so two
such texts that decode to the same bytes are equal. -/
theorem canonical_segment_text (s : GoString)
    (hpad : padChar ∉ s) (h10 : (10 : UInt8) ∉ s) (h13 : (13 : UInt8) ∉ s)
    (hacc : (DecodeSegment s).2 = none)
    (hbits : ∀ c, s.getLast? = some c →
      (s.length % 4 = 2 → decodeMap c % 16 = 0) ∧ (s.length % 4 = 3 → decodeMap c % 4 = 0)) :
    EncodeSegment (DecodeSegment s).1 = s ∧
    ∀ t : GoString, padChar ∉ t → (10 : UInt8) ∉ t → (13 : UInt8) ∉ t →
      (DecodeSegment t).2 = none →
      (∀ c, t.getLast? = some c →
        (t.length % 4 = 2 → decodeMap c % 16 = 0) ∧ (t.length % 4 = 3 → decodeMap c % 4 = 0)) →
      (DecodeSegment t).1 = (DecodeSegment s).1 → t = s := by
  have hs := canonical_roundtrip s hpad h10 h13 hacc hbits
  refine ⟨hs, ?_⟩
  intro t tpad t10 t13 tacc tbits heq
  have ht := canonical_roundtrip t tpad t10 t13 tacc tbits
  rw [← ht, heq, hs]

/-- C19, amended, at the text `QQ`. -/
theorem canonical_segment_text_witness :
    EncodeSegment (DecodeSegment (str "QQ")).1 = str "QQ" :=
  (canonical_segment_text (str "QQ") (by decide) (by decide) (by decide) rfl
    (by
      intro c hc
      have h81 : (str "QQ").getLast? = some 81 := by decide
      rw [h81] at hc
      injection hc with hc
      subst hc
      decide)).1

end Bwt
